import Mathlib

/-!
# Verification of the expense-analysis core (wellthy web-app backend)

This file gives a shallow embedding, in Lean 4, of the filter / aggregation /
insight engine of `web-app/backend/services/data_service.py` (together with the
tag parser of `web-app/backend/services/csv_service.py`), and proves or refutes
the frozen specification claims about it.

Modelling conventions:
* Python `float` amounts are modelled as exact rationals (`ℚ`); every claim
  under scrutiny is about exact arithmetic (the spec itself sets aside
  floating-point drift).
* Python operations that can raise (`x / y` with `y == 0`, `min`/`max` of an
  empty list) are modelled with `Option`: `none` models an exception
  propagating out of the function.
* Python `dict`s (which iterate in insertion order) are modelled as
  association lists built in insertion order.
* Python's stable `sorted(..., reverse=True)` is modelled by
  `List.insertionSort` with the corresponding total preorder (both are stable
  sorts, hence extensionally equal).
* Strings are Lean `String`s; `str.lower()` / `str.strip()` / `str.title()`
  are modelled character-wise for the ASCII range (the data this service
  handles); Python `datetime` values are modelled by their calendar date.
* `models/transaction.py` is not part of the retained sources. The record
  and query shapes it declares are modelled from the spec (section 3),
  and are marked as such below.
-/

/-! ## Character and string helpers (ASCII models of `str.lower`, `str.strip`,
`str.title`, substring test) -/

/-- ASCII model of lower-casing a single character (Python `str.lower`). -/
def lowerChar (c : Char) : Char :=
  if 65 ≤ c.toNat ∧ c.toNat ≤ 90 then Char.ofNat (c.toNat + 32) else c

/-- ASCII model of upper-casing a single character (Python `str.upper`). -/
def upperChar (c : Char) : Char :=
  if 97 ≤ c.toNat ∧ c.toNat ≤ 122 then Char.ofNat (c.toNat - 32) else c

/-- Is `c` an upper-case ASCII letter? -/
def isUpperAscii (c : Char) : Bool :=
  decide (65 ≤ c.toNat) && decide (c.toNat ≤ 90)

/-- Is `c` an ASCII letter? -/
def isAsciiAlpha (c : Char) : Bool :=
  (decide (65 ≤ c.toNat) && decide (c.toNat ≤ 90)) ||
    (decide (97 ≤ c.toNat) && decide (c.toNat ≤ 122))

/-- Model of Python `str.lower()`. -/
def toLowerStr (s : String) : String := ⟨s.data.map lowerChar⟩

/-- The characters Python `str.strip()` removes by default (ASCII whitespace). -/
def isPyWS (c : Char) : Bool :=
  c == ' ' || c == '\t' || c == '\n' || c == '\r' || c == '\x0b' || c == '\x0c'

/-- Model of Python `str.strip()` on a character list. -/
def stripChars (l : List Char) : List Char :=
  ((l.dropWhile isPyWS).reverse.dropWhile isPyWS).reverse

/-- Model of Python `str.strip()`. -/
def stripStr (s : String) : String := ⟨stripChars s.data⟩

/-- Title-casing walk: upper-case a letter that does not follow a letter,
lower-case one that does (`prev` records whether the previous character was a
letter).  Model of Python `str.title()` for ASCII text. -/
def titleAux : Bool → List Char → List Char
  | _, [] => []
  | prev, c :: cs =>
      (if isAsciiAlpha c then (if prev then lowerChar c else upperChar c) else c)
        :: titleAux (isAsciiAlpha c) cs

/-- Model of Python `str.title()`. -/
def titleStr (s : String) : String := ⟨titleAux false s.data⟩

/-- Does `pat` occur at the head of `l`? (helper for the substring test). -/
def leadsWith : List Char → List Char → Bool
  | [], _ => true
  | _ :: _, [] => false
  | a :: as, b :: bs => a == b && leadsWith as bs

/-- Model of Python `pat in s` on strings: does `pat` occur as a contiguous
substring of `l`? -/
def containsSub (pat : List Char) : List Char → Bool
  | [] => decide (pat = [])
  | c :: cs => leadsWith pat (c :: cs) || containsSub pat cs

/-- Split a character list at every occurrence of the delimiter `d`
(model of Python `str.split(d)` for a one-character separator). -/
def splitOnChar (d : Char) : List Char → List (List Char)
  | [] => [[]]
  | c :: cs =>
      match splitOnChar d cs with
      | [] => if c == d then [[], []] else [[c]]
      | p :: ps => if c == d then [] :: p :: ps else (c :: p) :: ps

/-! ## Guarded arithmetic and `Option` plumbing -/

/-- Python division: raises (here: `none`) on a zero divisor. -/
def divQ (a b : ℚ) : Option ℚ :=
  if b = 0 then none else some (a / b)

/-- Effectful map over `Option` (models a Python loop whose body may raise:
the first raise aborts the whole computation). -/
def mapO (f : α → Option β) : List α → Option (List β)
  | [] => some []
  | x :: xs => do
      let y ← f x
      let ys ← mapO f xs
      some (y :: ys)

theorem mapO_eq_map {f : α → Option β} {g : α → β} :
    ∀ {l : List α}, (∀ x ∈ l, f x = some (g x)) → mapO f l = some (l.map g)
  | [], _ => rfl
  | x :: xs, h => by
      have hx := h x (List.mem_cons_self x xs)
      have hxs := mapO_eq_map (f := f) (g := g)
        (l := xs) (fun y hy => h y (List.mem_cons_of_mem x hy))
      simp [mapO, hx, hxs]

theorem mapO_isSome {f : α → Option β} :
    ∀ {l : List α}, (∀ x ∈ l, (f x).isSome) → (mapO f l).isSome
  | [], _ => rfl
  | x :: xs, h => by
      have hx := h x (List.mem_cons_self x xs)
      have hxs := mapO_isSome (f := f) (l := xs)
        (fun y hy => h y (List.mem_cons_of_mem x hy))
      rcases Option.isSome_iff_exists.mp hx with ⟨y, hy⟩
      rcases Option.isSome_iff_exists.mp hxs with ⟨ys, hys⟩
      simp [mapO, hy, hys]

theorem bindB_some (a : α) (f : α → Option β) : (some a >>= f) = f a := rfl

theorem bindB_none (f : α → Option β) : ((none : Option α) >>= f) = none := rfl

theorem divQ_isSome {a b : ℚ} (h : b ≠ 0) : (divQ a b).isSome := by
  simp [divQ, h]

theorem divQ_eq_some {a b : ℚ} (h : b ≠ 0) : divQ a b = some (a / b) := by
  simp [divQ, h]

/-- Python's conditional expression `a / n if n > 0 else 0` for a `Nat`
denominator. -/
def condDivNat (a : ℚ) (n : Nat) : Option ℚ :=
  if 0 < n then divQ a (n : ℚ) else some 0

/-- Python's conditional expression `a / d if d > 0 else 0` for an `Int`
denominator. -/
def condDivInt (a : ℚ) (d : ℤ) : Option ℚ :=
  if 0 < d then divQ a (d : ℚ) else some 0

/-- Python's conditional expression `a / w if w > 0 else 0` for a rational
denominator. -/
def condDivQ (a w : ℚ) : Option ℚ :=
  if 0 < w then divQ a w else some 0

theorem condDivNat_eq_some {n : Nat} (h : 0 < n) (a : ℚ) :
    condDivNat a n = some (a / (n : ℚ)) := by
  unfold condDivNat
  rw [if_pos h]
  exact divQ_eq_some (Nat.cast_ne_zero.mpr (Nat.pos_iff_ne_zero.mp h))

/-! ## Calendar dates

Python `datetime` values are modelled by their calendar date; the time of day
is irrelevant to every retained operation except for sub-day rounding in
`datetime` subtraction, which the claims do not exercise. -/

/-- Calendar date (model of Python `datetime`). -/
structure DateTime where
  year : Nat
  month : Nat
  day : Nat
  deriving DecidableEq, Repr

/-- Lexicographic order on dates (model of `datetime` comparison). -/
def dateLE (a b : DateTime) : Bool :=
  decide (a.year < b.year) ||
    (decide (a.year = b.year) &&
      (decide (a.month < b.month) ||
        (decide (a.month = b.month) && decide (a.day ≤ b.day))))

/-- Strict version of `dateLE`. -/
def dateLT (a b : DateTime) : Bool :=
  dateLE a b && !(decide (a = b))

/-- Days since the civil epoch of the proleptic Gregorian calendar
(Hinnant's `days_from_civil`, specialised to years ≥ 1, which is the only
range the service's dates inhabit).  Used to model `datetime` subtraction. -/
def daysFromCivil (dt : DateTime) : Nat :=
  let y := if dt.month ≤ 2 then dt.year - 1 else dt.year
  let era := y / 400
  let yoe := y - era * 400
  let mp := if 2 < dt.month then dt.month - 3 else dt.month + 9
  let doy := (153 * mp + 2) / 5 + dt.day - 1
  let doe := yoe * 365 + yoe / 4 - yoe / 100 + doy
  era * 146097 + doe

/-- Model of `(a - b).days` for Python `datetime` values. -/
def dateDiffDays (a b : DateTime) : ℤ :=
  (daysFromCivil a : ℤ) - (daysFromCivil b : ℤ)

/-- Model of Python `min` over a list of dates (raises — `none` — on `[]`;
keeps the first minimum among ties, as CPython does). -/
def pyMinDate : List DateTime → Option DateTime
  | [] => none
  | d :: ds => some (ds.foldl (fun acc x => if dateLT x acc then x else acc) d)

/-- Model of Python `max` over a list of dates. -/
def pyMaxDate : List DateTime → Option DateTime
  | [] => none
  | d :: ds => some (ds.foldl (fun acc x => if dateLT acc x then x else acc) d)

theorem pyMinDate_isSome {l : List DateTime} (h : l ≠ []) : (pyMinDate l).isSome := by
  cases l with
  | nil => exact absurd rfl h
  | cons d ds => simp [pyMinDate]

theorem pyMaxDate_isSome {l : List DateTime} (h : l ≠ []) : (pyMaxDate l).isSome := by
  cases l with
  | nil => exact absurd rfl h
  | cons d ds => simp [pyMaxDate]

/-- Zero-pad a number to two digits (for `strftime` month fields). -/
def pad2 (n : Nat) : String :=
  if n < 10 then "0" ++ toString n else toString n

/-- Zero-pad a number to four digits (for `strftime` year fields). -/
def pad4 (n : Nat) : String :=
  if n < 10 then "000" ++ toString n
  else if n < 100 then "00" ++ toString n
  else if n < 1000 then "0" ++ toString n
  else toString n

/-- Model of `date.strftime("%Y-%m")`. -/
def monthKey (d : DateTime) : String := pad4 d.year ++ "-" ++ pad2 d.month

/-- Model of `date.strftime("%Y-%m-%d")`. -/
def dayKey (d : DateTime) : String := monthKey d ++ "-" ++ pad2 d.day

/-! ## Association lists in insertion order (model of Python `dict`) -/

/-- Update the value at key `k` in an insertion-ordered association list:
apply `f` to the existing value, or append `(k, f z)` when the key is new.
This models the Python idiom
`if k not in d: d[k] = z` followed by an in-place update of `d[k]`. -/
def updAssoc (k : String) (f : β → β) (z : β) : List (String × β) → List (String × β)
  | [] => [(k, f z)]
  | (k', v) :: rest =>
      if k' = k then (k', f v) :: rest else (k', v) :: updAssoc k f z rest

/-- Set the value at key `k` (overwriting an existing binding), appending when
the key is new.  Models Python `d[k] = v`. -/
def setAssoc (k : String) (v : β) : List (String × β) → List (String × β)
  | [] => [(k, v)]
  | (k', v') :: rest =>
      if k' = k then (k', v) :: rest else (k', v') :: setAssoc k v rest

/-- First-match lookup. Models Python `d[k]` / `k in d`. -/
def lookupA (k : String) : List (String × β) → Option β
  | [] => none
  | (k', v) :: rest => if k' = k then some v else lookupA k rest

theorem lookupA_updAssoc (k k' : String) (f : β → β) (z : β) :
    ∀ m : List (String × β),
      lookupA k (updAssoc k' f z m) =
        if k = k' then some (f ((lookupA k' m).getD z)) else lookupA k m
  | [] => by
      by_cases h : k = k'
      · subst h; simp [updAssoc, lookupA]
      · have h' : ¬ k' = k := fun hh => h hh.symm
        simp [updAssoc, lookupA, h, h']
  | (k₀, v) :: rest => by
      simp only [updAssoc]
      by_cases h0 : k₀ = k'
      · subst h0
        simp only [if_pos rfl, lookupA]
        by_cases h : k₀ = k
        · subst h; simp [lookupA]
        · have h' : ¬ k = k₀ := fun hh => h hh.symm
          simp [lookupA, h, h']
      · simp only [if_neg h0, lookupA, lookupA_updAssoc k k' f z rest]
        by_cases h : k₀ = k
        · subst h
          simp [h0]
        · have h0' : ¬ k₀ = k' := h0
          simp [lookupA, h, h0']

/-- Keys of an association list. -/
def keysA (m : List (String × β)) : List String := m.map Prod.fst

theorem keysA_updAssoc (k : String) (f : β → β) (z : β) :
    ∀ m : List (String × β),
      keysA (updAssoc k f z m) = if k ∈ keysA m then keysA m else keysA m ++ [k]
  | [] => by simp [updAssoc, keysA]
  | (k₀, v) :: rest => by
      by_cases h : k₀ = k
      · subst h; simp [updAssoc, keysA]
      · have h' : ¬ k = k₀ := fun hh => h hh.symm
        simp only [updAssoc, if_neg h, keysA, List.map_cons, List.mem_cons]
        have := keysA_updAssoc k f z rest
        by_cases hk : k ∈ keysA rest <;>
          simp_all [keysA]

theorem nodup_keysA_updAssoc {k : String} {f : β → β} {z : β}
    {m : List (String × β)} (h : (keysA m).Nodup) :
    (keysA (updAssoc k f z m)).Nodup := by
  rw [keysA_updAssoc]
  by_cases hk : k ∈ keysA m
  · simpa [hk] using h
  · rw [if_neg hk, List.nodup_append]
    exact ⟨h, List.nodup_singleton k, by simpa using hk⟩

theorem lookupA_eq_some_of_mem :
    ∀ {m : List (String × β)}, (keysA m).Nodup → ∀ {p : String × β}, p ∈ m →
      lookupA p.1 m = some p.2
  | [], _, _, hp => absurd hp (List.not_mem_nil _)
  | q :: rest, h, p, hp => by
      obtain ⟨qk, qv⟩ := q
      simp only [keysA, List.map_cons, List.nodup_cons] at h
      rcases List.mem_cons.mp hp with hq | hrest
      · subst hq
        simp [lookupA]
      · have hne : ¬ qk = p.1 := fun hh =>
          h.1 (hh ▸ List.mem_map_of_mem Prod.fst hrest)
        simp only [lookupA, if_neg hne]
        exact lookupA_eq_some_of_mem (by simpa [keysA] using h.2) hrest

theorem mem_of_lookupA_eq_some {k : String} {v : β} :
    ∀ {m : List (String × β)}, lookupA k m = some v → (k, v) ∈ m
  | [], h => by simp [lookupA] at h
  | (k₀, v₀) :: rest, h => by
      by_cases hk : k₀ = k
      · subst hk
        rw [lookupA, if_pos rfl] at h
        cases h
        exact List.mem_cons_self _ _
      · rw [lookupA, if_neg hk] at h
        exact List.mem_cons_of_mem _ (mem_of_lookupA_eq_some h)

/-! ## Grouping a list by a string key (model of the repeated
`if key not in d: d[key] = []` / `d[key].append(x)` pattern) -/

/-- One grouping step. -/
def grpStep (key : α → String) (m : List (String × List α)) (x : α) :
    List (String × List α) :=
  updAssoc (key x) (· ++ [x]) [] m

/-- Group `l` by `key`, keys in first-appearance order, each group in input
order. -/
def grpFold (key : α → String) (l : List α) : List (String × List α) :=
  l.foldl (grpStep key) []

theorem lookupA_grpFold_aux (key : α → String) (k : String) :
    ∀ (l : List α) (acc : List (String × List α)),
      lookupA k (l.foldl (grpStep key) acc) =
        match lookupA k acc with
        | some v => some (v ++ l.filter (fun x => key x == k))
        | none =>
            if (l.filter (fun x => key x == k)).isEmpty then none
            else some (l.filter (fun x => key x == k))
  | [], acc => by
      cases h : lookupA k acc <;> simp [h]
  | x :: xs, acc => by
      rw [List.foldl_cons, lookupA_grpFold_aux key k xs (grpStep key acc x)]
      unfold grpStep
      rw [lookupA_updAssoc]
      by_cases hx : k = key x
      · subst hx
        rw [if_pos rfl]
        have hpx : (key x == key x) = true := by simp
        cases h : lookupA (key x) acc <;>
          simp [h, List.filter_cons, hpx]
      · rw [if_neg hx]
        have hx' : (key x == k) = false := by
          simp only [beq_eq_false_iff_ne, ne_eq]
          exact fun hh => hx hh.symm
        cases h : lookupA k acc <;> simp [h, List.filter_cons, hx']

theorem lookupA_grpFold (key : α → String) (k : String) (l : List α) :
    lookupA k (grpFold key l) =
      (if (l.filter (fun x => key x == k)).isEmpty then none
        else some (l.filter (fun x => key x == k))) := by
  have h := lookupA_grpFold_aux key k l []
  simpa [grpFold, lookupA] using h

theorem nodup_keysA_grpFold (key : α → String) (l : List α) :
    (keysA (grpFold key l)).Nodup := by
  suffices h : ∀ (l : List α) (acc : List (String × List α)),
      (keysA acc).Nodup → (keysA (l.foldl (grpStep key) acc)).Nodup by
    exact h l [] (by simp [keysA])
  intro l
  induction l with
  | nil => intro acc h; simpa using h
  | cons x xs ih =>
      intro acc h
      exact ih _ (nodup_keysA_updAssoc h)

/-- Every group of `grpFold` is exactly the sublist of `l` with that key. -/
theorem grpFold_entry_eq_filter {key : α → String} {l : List α}
    {p : String × List α} (hp : p ∈ grpFold key l) :
    p.2 = l.filter (fun x => key x == p.1) ∧ p.2 ≠ [] := by
  have hl := lookupA_eq_some_of_mem (nodup_keysA_grpFold key l) hp
  rw [lookupA_grpFold] at hl
  by_cases hne : (l.filter (fun x => key x == p.1)).isEmpty
  · rw [if_pos hne] at hl; cases hl
  · rw [if_neg hne] at hl
    have hv : p.2 = l.filter (fun x => key x == p.1) :=
      (Option.some.injEq _ _ ▸ hl).symm
    refine ⟨hv, ?_⟩
    intro h0
    rw [h0] at hv
    exact hne (by rw [← hv]; rfl)

/-- Conversely, every key occurring in `l` owns a group. -/
theorem grpFold_mem_of_filter_ne {key : α → String} {l : List α} {k : String}
    (h : ¬ (l.filter (fun x => key x == k)).isEmpty) :
    (k, l.filter (fun x => key x == k)) ∈ grpFold key l := by
  apply mem_of_lookupA_eq_some
  rw [lookupA_grpFold, if_neg h]

/-- The groups of `grpFold` jointly exhaust `l`: summing any ℚ-valued measure
of the groups recovers the sum over `l`. -/
theorem grpFold_sum_measure (key : α → String) (g : α → ℚ) (l : List α) :
    ((grpFold key l).map (fun p => (p.2.map g).sum)).sum = (l.map g).sum := by
  suffices h : ∀ (l : List α) (acc : List (String × List α)),
      ((l.foldl (grpStep key) acc).map (fun p => (p.2.map g).sum)).sum =
        (acc.map (fun p => (p.2.map g).sum)).sum + (l.map g).sum by
    simpa [grpFold] using h l []
  intro l
  induction l with
  | nil => intro acc; simp
  | cons x xs ih =>
      intro acc
      rw [List.foldl_cons, ih]
      have hstep : ∀ (m : List (String × List α)),
          ((grpStep key m x).map (fun p => (p.2.map g).sum)).sum =
            (m.map (fun p => (p.2.map g).sum)).sum + g x := by
        intro m
        induction m with
        | nil => simp [grpStep, updAssoc]
        | cons q rest ihm =>
            by_cases hq : q.1 = key x
            · cases q with
              | mk qk qv =>
                  simp only at hq
                  simp [grpStep, updAssoc, hq, add_comm, add_assoc, add_left_comm]
            · cases q with
              | mk qk qv =>
                  simp only at hq
                  simp only [grpStep, updAssoc, if_neg hq, List.map_cons,
                    List.sum_cons] at ihm ⊢
                  rw [ihm]
                  ring
      rw [hstep acc, List.map_cons, List.sum_cons]
      ring

/-- All groups produced by grouping are non-empty. -/
theorem grpFold_values_ne_nil {key : α → String} {l : List α}
    {p : String × List α} (hp : p ∈ grpFold key l) : p.2 ≠ [] :=
  (grpFold_entry_eq_filter hp).2

/-! ## First-occurrence deduplication (model of Python `dict` key collapse) -/

/-- Deduplicate keeping the first occurrence (Python `dict.fromkeys` order). -/
def firstDedup [DecidableEq α] : List α → List α
  | [] => []
  | x :: xs => x :: firstDedup (xs.filter (fun y => y ≠ x))
termination_by l => l.length
decreasing_by
  simpa using Nat.lt_succ_of_le (List.length_filter_le _ _)

theorem mem_firstDedup [DecidableEq α] :
    ∀ {l : List α} {a : α}, a ∈ firstDedup l ↔ a ∈ l
  | [], a => by simp [firstDedup]
  | x :: xs, a => by
      rw [firstDedup]
      by_cases h : a = x
      · subst h; simp
      · simp only [List.mem_cons, h, false_or]
        rw [mem_firstDedup (l := xs.filter (fun y => y ≠ x))]
        simp [List.mem_filter, h]
termination_by l => l.length
decreasing_by
  simpa using Nat.lt_succ_of_le (List.length_filter_le _ _)

/-! ## Data model

`models/transaction.py` is not among the retained sources; the shapes below
are modelled from the spec (section 3 "DATA MODEL"), restricted to the fields
the retained operations read.  Equality of two `Transaction` values models
pydantic value equality (field-wise comparison). -/

/-- Modelled from the spec: `transaction_type: one of {REGULAR,
INTERNAL_TRANSFER, INCOME}` (the enum lives in the missing
`models/transaction.py`). -/
inductive TransactionType where
  | regular
  | internal_transfer
  | income
  deriving DecidableEq, Repr

/-- Modelled from the spec: the Transaction record of section 3, restricted to
the fields the retained operations read (the full pydantic model lives in the
missing `models/transaction.py`). -/
structure Transaction where
  id : String
  amount : ℚ
  description : String
  merchant : Option String
  category : String
  date : DateTime
  tags : List String
  transaction_type : TransactionType
  excluded : Bool
  deriving DecidableEq, Repr

/-- Modelled from the spec: the `absolute_amount` accessor — the spec stores
`amount` "as given by the source (no forced absolute value) except where an
operation explicitly requests `absolute_amount`". -/
def absolute_amount (t : Transaction) : ℚ := |t.amount|

/-- Modelled from the spec: the TransactionQuery request value of section 3
("date range, category set, transaction-type set, min/max absolute amount,
free-text substring, tag set, include_excluded flag (default false)");
every field but the flag is optional. -/
structure TransactionQuery where
  start_date : Option DateTime := none
  end_date : Option DateTime := none
  categories : List String := []
  transaction_types : List TransactionType := []
  min_amount : Option ℚ := none
  max_amount : Option ℚ := none
  search_text : Option String := none
  tags : List String := []
  include_excluded : Bool := false
  deriving DecidableEq, Repr

/-! ## Filter engine (`DataService.get_transactions`, data_service.py 24-50)

Each `if filters.x: transactions = [t for t in transactions if ...]` line is
one `stageFilter` application; the stage's guard is the Python truthiness of
the query field (`None`, `0`, `""` and `[]` are all falsy). -/

/-- One filter stage: apply the predicate when the guard is truthy. -/
def stageFilter (b : Bool) (p : Transaction → Bool) (ts : List Transaction) :
    List Transaction :=
  if b then ts.filter p else ts

/-- `get_transactions` minus the CSV load: the pure filter pipeline applied to
the record list (data_service.py lines 30-50). -/
def filterTransactions (q : TransactionQuery) (ts : List Transaction) :
    List Transaction :=
  let ts1 := stageFilter (!q.include_excluded) (fun t => !t.excluded) ts
  let ts2 := stageFilter q.start_date.isSome
    (fun t => q.start_date.all (fun d => dateLE d t.date)) ts1
  let ts3 := stageFilter q.end_date.isSome
    (fun t => q.end_date.all (fun d => dateLE t.date d)) ts2
  let ts4 := stageFilter (!q.categories.isEmpty)
    (fun t => decide (t.category ∈ q.categories)) ts3
  let ts5 := stageFilter (!q.transaction_types.isEmpty)
    (fun t => decide (t.transaction_type ∈ q.transaction_types)) ts4
  let ts6 := stageFilter (q.min_amount.any (fun m => decide (m ≠ 0)))
    (fun t => q.min_amount.all (fun m => decide (m ≤ absolute_amount t))) ts5
  let ts7 := stageFilter (q.max_amount.any (fun m => decide (m ≠ 0)))
    (fun t => q.max_amount.all (fun m => decide (absolute_amount t ≤ m))) ts6
  let ts8 := stageFilter (q.search_text.any (fun s => !s.isEmpty))
    (fun t => q.search_text.all
      (fun s => containsSub (toLowerStr s).data (toLowerStr t.description).data)) ts7
  stageFilter (!q.tags.isEmpty)
    (fun t => q.tags.any (fun g => decide (g ∈ t.tags))) ts8

theorem stageFilter_sublist (b : Bool) (p : Transaction → Bool)
    (ts : List Transaction) : (stageFilter b p ts).Sublist ts := by
  cases b
  · exact List.Sublist.refl ts
  · exact List.filter_sublist ts

theorem mem_of_mem_stageFilter {b : Bool} {p : Transaction → Bool}
    {ts : List Transaction} {t : Transaction} (h : t ∈ stageFilter b p ts) :
    t ∈ ts :=
  (stageFilter_sublist b p ts).mem h

theorem sat_of_mem_stageFilter {b : Bool} {p : Transaction → Bool}
    {ts : List Transaction} {t : Transaction} (h : t ∈ stageFilter b p ts) :
    b = true → p t = true := by
  intro hb
  subst hb
  simpa [stageFilter] using (List.mem_filter.mp (by simpa [stageFilter] using h)).2

theorem stageFilter_eq_self {b : Bool} {p : Transaction → Bool}
    {ts : List Transaction} (h : ∀ t ∈ ts, b = true → p t = true) :
    stageFilter b p ts = ts := by
  cases b
  · rfl
  · simpa [stageFilter] using List.filter_eq_self.mpr (fun t ht => h t ht rfl)

/-- The conjunction of all per-stage predicates a record surviving
`filterTransactions` satisfies (guard ⇒ predicate, stage by stage). -/
def keepPred (q : TransactionQuery) (t : Transaction) : Prop :=
  ((!q.include_excluded) = true → (!t.excluded) = true) ∧
  (q.start_date.isSome = true →
    q.start_date.all (fun d => dateLE d t.date) = true) ∧
  (q.end_date.isSome = true →
    q.end_date.all (fun d => dateLE t.date d) = true) ∧
  ((!q.categories.isEmpty) = true → decide (t.category ∈ q.categories) = true) ∧
  ((!q.transaction_types.isEmpty) = true →
    decide (t.transaction_type ∈ q.transaction_types) = true) ∧
  (q.min_amount.any (fun m => decide (m ≠ 0)) = true →
    q.min_amount.all (fun m => decide (m ≤ absolute_amount t)) = true) ∧
  (q.max_amount.any (fun m => decide (m ≠ 0)) = true →
    q.max_amount.all (fun m => decide (absolute_amount t ≤ m)) = true) ∧
  (q.search_text.any (fun s => !s.isEmpty) = true →
    q.search_text.all
      (fun s => containsSub (toLowerStr s).data (toLowerStr t.description).data)
      = true) ∧
  ((!q.tags.isEmpty) = true → q.tags.any (fun g => decide (g ∈ t.tags)) = true)

theorem mem_filterTransactions {q : TransactionQuery} {ts : List Transaction}
    {t : Transaction} (h : t ∈ filterTransactions q ts) :
    t ∈ ts ∧ keepPred q t := by
  simp only [filterTransactions] at h
  have s9 := sat_of_mem_stageFilter h
  replace h := mem_of_mem_stageFilter h
  have s8 := sat_of_mem_stageFilter h
  replace h := mem_of_mem_stageFilter h
  have s7 := sat_of_mem_stageFilter h
  replace h := mem_of_mem_stageFilter h
  have s6 := sat_of_mem_stageFilter h
  replace h := mem_of_mem_stageFilter h
  have s5 := sat_of_mem_stageFilter h
  replace h := mem_of_mem_stageFilter h
  have s4 := sat_of_mem_stageFilter h
  replace h := mem_of_mem_stageFilter h
  have s3 := sat_of_mem_stageFilter h
  replace h := mem_of_mem_stageFilter h
  have s2 := sat_of_mem_stageFilter h
  replace h := mem_of_mem_stageFilter h
  have s1 := sat_of_mem_stageFilter h
  replace h := mem_of_mem_stageFilter h
  exact ⟨h, s1, s2, s3, s4, s5, s6, s7, s8, s9⟩

theorem filterTransactions_eq_self {q : TransactionQuery} {ts : List Transaction}
    (h : ∀ t ∈ ts, keepPred q t) : filterTransactions q ts = ts := by
  simp only [filterTransactions]
  have e1 := stageFilter_eq_self (fun t ht hb => (h t ht).1 hb)
  rw [e1]
  have e2 := stageFilter_eq_self (fun t ht hb => (h t ht).2.1 hb)
  rw [e2]
  have e3 := stageFilter_eq_self (fun t ht hb => (h t ht).2.2.1 hb)
  rw [e3]
  have e4 := stageFilter_eq_self (fun t ht hb => (h t ht).2.2.2.1 hb)
  rw [e4]
  have e5 := stageFilter_eq_self (fun t ht hb => (h t ht).2.2.2.2.1 hb)
  rw [e5]
  have e6 := stageFilter_eq_self (fun t ht hb => (h t ht).2.2.2.2.2.1 hb)
  rw [e6]
  have e7 := stageFilter_eq_self (fun t ht hb => (h t ht).2.2.2.2.2.2.1 hb)
  rw [e7]
  have e8 := stageFilter_eq_self (fun t ht hb => (h t ht).2.2.2.2.2.2.2.1 hb)
  rw [e8]
  exact stageFilter_eq_self (fun t ht hb => (h t ht).2.2.2.2.2.2.2.2 hb)

theorem filterTransactions_sublist (q : TransactionQuery) (ts : List Transaction) :
    (filterTransactions q ts).Sublist ts := by
  simp only [filterTransactions]
  exact ((((((((stageFilter_sublist _ _ _).trans
    (stageFilter_sublist _ _ _)).trans
    (stageFilter_sublist _ _ _)).trans
    (stageFilter_sublist _ _ _)).trans
    (stageFilter_sublist _ _ _)).trans
    (stageFilter_sublist _ _ _)).trans
    (stageFilter_sublist _ _ _)).trans
    (stageFilter_sublist _ _ _)).trans
    (stageFilter_sublist _ _ _)

/-- C5: For every record list R and query Q, filtering is idempotent —
`filter(filter(R, Q), Q) == filter(R, Q)` — and `filter(R, Q)` preserves the
input order of R (the result is a subsequence of R). -/
theorem filter_idempotent_and_order_preserving (q : TransactionQuery)
    (ts : List Transaction) :
    filterTransactions q (filterTransactions q ts) = filterTransactions q ts ∧
      (filterTransactions q ts).Sublist ts :=
  ⟨filterTransactions_eq_self (fun t ht => (mem_filterTransactions ht).2),
    filterTransactions_sublist q ts⟩

/-! ## Claim C6: absolute-amount bounds and Python truthiness -/

/-- A plain regular record with amount 5 (used to exhibit the zero-bound
behaviour of the amount filters). -/
def txAmount5 : Transaction :=
  { id := "cex6", amount := 5, description := "coffee", merchant := none,
    category := "food", date := ⟨2024, 1, 1⟩, tags := [],
    transaction_type := .regular, excluded := false }

/-- A query supplying a maximum absolute amount of 0. -/
def qMaxZero : TransactionQuery := { max_amount := some 0 }

/-- C6 counterexample: with a supplied maximum bound of 0, the filter keeps a
record whose absolute amount is 5 — `if filters.max_amount:` is falsy at 0, so
the bound is skipped rather than applied inclusively, refuting the claim that
"this holds for every supplied bound value, including a bound equal to 0". -/
theorem amount_bound_zero_counterexample :
    filterTransactions qMaxZero [txAmount5] = [txAmount5] ∧
      ¬ absolute_amount txAmount5 ≤ 0 := by
  refine ⟨by rfl, by decide⟩

/-- C6 amended: a supplied *non-zero* minimum (resp. maximum) absolute-amount
bound keeps exactly the records with `absolute_amount ≥ min` (resp. `≤ max`),
bounds inclusive; a bound that is absent *or equal to 0* is a no-op (Python
truthiness of the query field). -/
theorem amount_bounds_semantics (ts : List Transaction) (m M : ℚ)
    (hm : m ≠ 0) (hM : M ≠ 0) :
    (filterTransactions { min_amount := some m, include_excluded := true } ts
        = ts.filter (fun t => decide (m ≤ absolute_amount t))) ∧
    (filterTransactions { max_amount := some M, include_excluded := true } ts
        = ts.filter (fun t => decide (absolute_amount t ≤ M))) ∧
    (filterTransactions { min_amount := some 0, include_excluded := true } ts
        = ts) ∧
    (filterTransactions { max_amount := some 0, include_excluded := true } ts
        = ts) ∧
    (filterTransactions { include_excluded := true } ts = ts) := by
  refine ⟨?_, ?_, ?_, ?_, ?_⟩ <;>
    simp [filterTransactions, stageFilter, hm, hM]

/-- Witness for `amount_bounds_semantics` at concrete inputs. -/
theorem amount_bounds_semantics_witness :
    (2 : ℚ) ≠ 0 ∧ (7 : ℚ) ≠ 0 ∧
    ((filterTransactions { min_amount := some 2, include_excluded := true }
        [txAmount5]
        = List.filter (fun t => decide ((2 : ℚ) ≤ absolute_amount t)) [txAmount5]) ∧
    (filterTransactions { max_amount := some 7, include_excluded := true }
        [txAmount5]
        = List.filter (fun t => decide (absolute_amount t ≤ (7 : ℚ))) [txAmount5]) ∧
    (filterTransactions { min_amount := some 0, include_excluded := true }
        [txAmount5] = [txAmount5]) ∧
    (filterTransactions { max_amount := some 0, include_excluded := true }
        [txAmount5] = [txAmount5]) ∧
    (filterTransactions { include_excluded := true } [txAmount5] = [txAmount5])) :=
  ⟨by norm_num, by norm_num,
    amount_bounds_semantics [txAmount5] 2 7 (by norm_num) (by norm_num)⟩

/-! ## CSV tag parsing (`CSVService._parse_tags`, csv_service.py 158-173) -/

/-- The per-delimiter comprehension of `_parse_tags`:
`[tag.strip().lower() for tag in tags_str.split(delimiter) if tag.strip()]`. -/
def parseTagsPieces (d : Char) (l : List Char) : List String :=
  (((splitOnChar d l).map stripChars).filter (fun p => !p.isEmpty)).map
    (fun p => (⟨p.map lowerChar⟩ : String))

/-- The fallback `[tags_str.strip().lower()]` element of `_parse_tags`. -/
def parseTagsFallback (l : List Char) : String := ⟨(stripChars l).map lowerChar⟩

/-- Model of `CSVService._parse_tags`: split on the first delimiter found
among `, ; |`, strip and lower-case each non-blank piece; when the loop
produced nothing (no delimiter present, or all pieces blank), fall back to
the whole (stripped, lowered) string.  The empty string yields no tags.
(`pd.isna` is never true of the `str` value the caller passes.) -/
def parseTags (tags_str : String) : List String :=
  if tags_str.data.isEmpty then []
  else
    match [',', ';', '|'].find? (fun d => tags_str.data.contains d) with
    | some d =>
        if (parseTagsPieces d tags_str.data).isEmpty then
          [parseTagsFallback tags_str.data]
        else parseTagsPieces d tags_str.data
    | none => [parseTagsFallback tags_str.data]

/-- `str.lower()` never outputs an upper-case ASCII letter. -/
theorem isUpperAscii_lowerChar (c : Char) : isUpperAscii (lowerChar c) = false := by
  unfold lowerChar
  by_cases h : 65 ≤ c.toNat ∧ c.toNat ≤ 90
  · rw [if_pos h]
    have hv : (c.toNat + 32).isValidChar := Or.inl (by omega)
    have ht : (Char.ofNat (c.toNat + 32)).toNat = c.toNat + 32 := by
      rw [Char.ofNat, dif_pos hv]
      rfl
    simp only [isUpperAscii, ht, Bool.and_eq_false_iff, decide_eq_false_iff_not]
    omega
  · rw [if_neg h]
    simp only [isUpperAscii, Bool.and_eq_false_iff, decide_eq_false_iff_not]
    omega

/-- A string free of upper-case ASCII letters. -/
abbrev noUpperStr (s : String) : Prop := ∀ c ∈ s.data, isUpperAscii c = false

theorem noUpper_of_mem_lowerMap {l : List (List Char)} {g : String}
    (h : g ∈ l.map (fun p => (⟨p.map lowerChar⟩ : String))) : noUpperStr g := by
  rcases List.mem_map.mp h with ⟨p, _, rfl⟩
  intro c hc
  rcases List.mem_map.mp hc with ⟨c', _, rfl⟩
  exact isUpperAscii_lowerChar c'

theorem noUpper_parseTagsFallback (l : List Char) :
    noUpperStr (parseTagsFallback l) := by
  intro c hc
  rcases List.mem_map.mp hc with ⟨c', _, rfl⟩
  exact isUpperAscii_lowerChar c'

/-- Every tag `_parse_tags` produces is free of upper-case ASCII letters. -/
theorem parseTags_noUpper (s : String) : ∀ g ∈ parseTags s, noUpperStr g := by
  intro g hg
  unfold parseTags at hg
  split at hg
  · cases hg
  · split at hg
    · split at hg
      · rcases List.mem_singleton.mp hg with rfl
        exact noUpper_parseTagsFallback s.data
      · exact noUpper_of_mem_lowerMap hg
    · rcases List.mem_singleton.mp hg with rfl
      exact noUpper_parseTagsFallback s.data

/-- The selection a target tag makes inside the overlap operations: both
`calculate_category_tag_overlap` (data_service.py 469-472) and the `tag_sets`
of `calculate_multi_tag_category_overlap` (542-546) lower-case *both* the
target tag and the record's tags before comparing. -/
def taggedSelection (tag : String) (ts : List Transaction) : List Transaction :=
  ts.filter (fun t => decide (toLowerStr tag ∈ t.tags.map toLowerStr))

/-- C9: the filter's tag predicate is exact (verbatim list membership, hence
case-sensitive), CSV-parsed tags are all lower-case, so a query tag with an
upper-case ASCII letter matches no loaded record through `get_transactions`;
the overlap operations instead compare both sides lower-cased. -/
theorem tag_filter_exact_but_overlaps_case_insensitive :
    (∀ s : String, ∀ g ∈ parseTags s, noUpperStr g) ∧
    (∀ (gs : List String) (ts : List Transaction), gs ≠ [] →
      filterTransactions { tags := gs, include_excluded := true } ts
        = ts.filter (fun t => gs.any (fun g => decide (g ∈ t.tags)))) ∧
    (∀ (g : String) (ts : List Transaction),
      (∃ c ∈ g.data, isUpperAscii c = true) →
      (∀ t ∈ ts, ∀ tg ∈ t.tags, noUpperStr tg) →
      filterTransactions { tags := [g], include_excluded := true } ts = []) ∧
    (∀ (g : String) (ts : List Transaction) (t : Transaction),
      t ∈ taggedSelection g ts ↔ t ∈ ts ∧ toLowerStr g ∈ t.tags.map toLowerStr) := by
  have exact_tag : ∀ (gs : List String) (ts : List Transaction), gs ≠ [] →
      filterTransactions { tags := gs, include_excluded := true } ts
        = ts.filter (fun t => gs.any (fun g => decide (g ∈ t.tags))) := by
    intro gs ts hgs
    cases gs with
    | nil => exact absurd rfl hgs
    | cons g gs' => simp [filterTransactions, stageFilter]
  refine ⟨parseTags_noUpper, exact_tag, ?_, ?_⟩
  · intro g ts hup hts
    rw [exact_tag [g] ts (by simp)]
    rw [List.filter_eq_nil_iff]
    intro t ht
    simp only [List.any_cons, List.any_nil, Bool.or_false, decide_eq_true_eq]
    intro hmem
    rcases hup with ⟨c, hc, hcu⟩
    have := hts t ht g hmem c hc
    rw [this] at hcu
    cases hcu
  · intro g ts t
    simpa [taggedSelection] using List.mem_filter (l := ts)

/-- Witness: the concrete query tag `"Trip"` (upper-case T) selects nothing
through the filter, over a record whose stored tag is `"trip"`. -/
theorem tag_filter_case_witness :
    filterTransactions { tags := ["Trip"], include_excluded := true }
      [{ id := "w9", amount := 10, description := "taxi", merchant := none,
         category := "transportation", date := ⟨2024, 3, 1⟩, tags := ["trip"],
         transaction_type := .regular, excluded := false }] = [] :=
  tag_filter_exact_but_overlaps_case_insensitive.2.2.1 "Trip" _
    (by decide) (by decide)

/-! ## Aggregation engine: summary and its sub-aggregates
(`DataService.get_transaction_summary` and helpers, data_service.py 100-170,
370-462) -/

/-- Signed-amount sum of a record list. -/
def sumAmounts (l : List Transaction) : ℚ := (l.map (·.amount)).sum

/-- Absolute-amount sum of a record list. -/
def sumAbsAmounts (l : List Transaction) : ℚ := (l.map absolute_amount).sum

/-- Per-category accumulator of the `category_breakdown` dict
(data_service.py 133-146). -/
structure CategoryTotals where
  regular : ℚ
  income : ℚ
  transfers : ℚ
  net : ℚ
  deriving DecidableEq, Repr

/-- The zero value a fresh category bucket starts from. -/
def czero : CategoryTotals := ⟨0, 0, 0, 0⟩

/-- One loop iteration of the category-breakdown accumulation: add the amount
to the bucket of the record's transaction type, then recompute
`net = regular - income`. -/
def applyToCategoryTotals (t : Transaction) (v : CategoryTotals) : CategoryTotals :=
  let v1 :=
    match t.transaction_type with
    | .regular => { v with regular := v.regular + t.amount }
    | .income => { v with income := v.income + t.amount }
    | .internal_transfer => { v with transfers := v.transfers + t.amount }
  { v1 with net := v1.regular - v1.income }

/-- The `category_breakdown` dict after the loop (keys in first-appearance
order). -/
def categoryBreakdownFold (ts : List Transaction) : List (String × CategoryTotals) :=
  ts.foldl (fun m t => updAssoc t.category (applyToCategoryTotals t) czero m) []

/-- Per-month accumulator of `_calculate_monthly_trends`
(data_service.py 376-390). -/
structure MonthStats where
  regular : ℚ
  income : ℚ
  transfers : ℚ
  net : ℚ
  count : Nat
  deriving DecidableEq, Repr

def mzero : MonthStats := ⟨0, 0, 0, 0, 0⟩

def applyToMonthStats (t : Transaction) (v : MonthStats) : MonthStats :=
  let v1 :=
    match t.transaction_type with
    | .regular => { v with regular := v.regular + t.amount }
    | .income => { v with income := v.income + t.amount }
    | .internal_transfer => { v with transfers := v.transfers + t.amount }
  { v1 with net := v1.regular - v1.income, count := v1.count + 1 }

/-- One output row of `_calculate_monthly_trends`. -/
structure MonthlyTrendEntry where
  month : String
  regular : ℚ
  income : ℚ
  transfers : ℚ
  net : ℚ
  transaction_count : Nat
  deriving DecidableEq, Repr

/-- `_calculate_monthly_trends`: group by `strftime("%Y-%m")`, then emit rows
sorted ascending by month key (`sorted(monthly_data.items())`; keys are
distinct, so Python's tuple comparison never reaches the values). -/
def calculate_monthly_trends (transactions : List Transaction) :
    List MonthlyTrendEntry :=
  if transactions.isEmpty then []
  else
    let monthly_data := transactions.foldl
      (fun m t => updAssoc (monthKey t.date) (applyToMonthStats t) mzero m) []
    (monthly_data.insertionSort (fun a b => a.1 < b.1 ∨ a.1 = b.1)).map
      (fun p =>
        { month := p.1, regular := p.2.regular, income := p.2.income,
          transfers := p.2.transfers, net := p.2.net,
          transaction_count := p.2.count })

/-- Python `transaction.merchant or "Unknown"`: `None` *and the empty string*
are falsy. -/
def merchantKey (t : Transaction) : String :=
  match t.merchant with
  | none => "Unknown"
  | some s => if s.isEmpty then "Unknown" else s

structure MerchantStats where
  amount : ℚ
  count : Nat
  deriving DecidableEq, Repr

/-- One output row of `_calculate_top_merchants`. -/
structure MerchantEntry where
  merchant : String
  amount : ℚ
  count : Nat
  deriving DecidableEq, Repr

/-- `_calculate_top_merchants` (data_service.py 406-432): REGULAR records
only, grouped by merchant, sorted descending by summed amount (stable), first
`limit` rows emitted. -/
def calculate_top_merchants (transactions : List Transaction)
    (limit : Nat := 10) : List MerchantEntry :=
  if transactions.isEmpty then []
  else
    let regular_transactions :=
      transactions.filter (fun t => decide (t.transaction_type = .regular))
    let merchant_data := regular_transactions.foldl
      (fun m t => updAssoc (merchantKey t)
        (fun v => { amount := v.amount + t.amount, count := v.count + 1 })
        (⟨0, 0⟩ : MerchantStats) m) []
    ((merchant_data.insertionSort (fun a b => b.2.amount ≤ a.2.amount)).take
      limit).map
      (fun p => { merchant := p.1, amount := p.2.amount, count := p.2.count })

structure SpendingVelocity where
  daily : ℚ
  weekly : ℚ
  monthly : ℚ
  deriving DecidableEq, Repr

/-- `_calculate_spending_velocity` (data_service.py 434-462): REGULAR records
only; spans derived from the min/max dates; every division is written exactly
where Python divides (the `total_days / 7` and `/ 30` spans are divisions
too, though by constants). -/
def calculate_spending_velocity (transactions : List Transaction) :
    Option SpendingVelocity :=
  if transactions.isEmpty then some ⟨0, 0, 0⟩
  else
    let regular_transactions :=
      transactions.filter (fun t => decide (t.transaction_type = .regular))
    if regular_transactions.isEmpty then some ⟨0, 0, 0⟩
    else do
      let min_date ← pyMinDate (regular_transactions.map (·.date))
      let max_date ← pyMaxDate (regular_transactions.map (·.date))
      let total_days : ℤ := dateDiffDays max_date min_date + 1
      let total_weeks : ℚ ← divQ (total_days : ℚ) 7
      let total_months : ℚ ← divQ (total_days : ℚ) 30
      let total_amount := sumAmounts regular_transactions
      let daily ← condDivInt total_amount total_days
      let weekly ← condDivQ total_amount total_weeks
      let monthly ← condDivQ total_amount total_months
      some ⟨daily, weekly, monthly⟩

/-- The summary record (modelled from the spec: `TransactionSummary` lives in
the missing `models/transaction.py`; its fields are those
`get_transaction_summary` fills in). -/
structure TransactionSummary where
  total_regular_amount : ℚ
  total_income_amount : ℚ
  net_amount : ℚ
  transaction_count : Nat
  regular_count : Nat
  income_count : Nat
  transfer_count : Nat
  average_amount : ℚ
  category_breakdown : List (String × CategoryTotals)
  monthly_trends : List MonthlyTrendEntry
  top_merchants : List MerchantEntry
  spending_velocity : SpendingVelocity
  deriving DecidableEq, Repr

/-- The all-zero summary returned on an empty record set
(data_service.py 104-118). -/
def emptySummary : TransactionSummary :=
  { total_regular_amount := 0, total_income_amount := 0, net_amount := 0,
    transaction_count := 0, regular_count := 0, income_count := 0,
    transfer_count := 0, average_amount := 0, category_breakdown := [],
    monthly_trends := [], top_merchants := [],
    spending_velocity := ⟨0, 0, 0⟩ }

/-- `get_transaction_summary` minus the load-and-filter prefix: the summary of
an already-filtered record list (data_service.py 104-170). -/
def summarizeTransactions (transactions : List Transaction) :
    Option TransactionSummary :=
  if transactions.isEmpty then some emptySummary
  else
    let regular_transactions :=
      transactions.filter (fun t => decide (t.transaction_type = .regular))
    let income_transactions :=
      transactions.filter (fun t => decide (t.transaction_type = .income))
    let transfer_transactions :=
      transactions.filter (fun t => decide (t.transaction_type = .internal_transfer))
    let total_regular := sumAmounts regular_transactions
    let total_income := sumAmounts income_transactions
    let transaction_count := transactions.length
    do
      let average_amount ← condDivNat (sumAbsAmounts transactions) transaction_count
      let spending_velocity ← calculate_spending_velocity transactions
      some
        { total_regular_amount := total_regular,
          total_income_amount := total_income,
          net_amount := total_regular - total_income,
          transaction_count := transaction_count,
          regular_count := regular_transactions.length,
          income_count := income_transactions.length,
          transfer_count := transfer_transactions.length,
          average_amount := average_amount,
          category_breakdown := categoryBreakdownFold transactions,
          monthly_trends := calculate_monthly_trends transactions,
          top_merchants := calculate_top_merchants transactions,
          spending_velocity := spending_velocity }

/-- `get_transaction_summary` proper: filter, then summarize. -/
def get_transaction_summary (q : TransactionQuery) (ts : List Transaction) :
    Option TransactionSummary :=
  summarizeTransactions (filterTransactions q ts)

/-! ## Claims C3 and C10: summary invariants -/

/-- What a record contributes to the regular bucket of its group. -/
def regContrib (t : Transaction) : ℚ :=
  if t.transaction_type = .regular then t.amount else 0

/-- What a record contributes to the income bucket of its group. -/
def incContrib (t : Transaction) : ℚ :=
  if t.transaction_type = .income then t.amount else 0

theorem applyToCategoryTotals_regular (t : Transaction) (v : CategoryTotals) :
    (applyToCategoryTotals t v).regular = v.regular + regContrib t := by
  rcases ht : t.transaction_type <;>
    simp [applyToCategoryTotals, ht, regContrib]

theorem applyToCategoryTotals_income (t : Transaction) (v : CategoryTotals) :
    (applyToCategoryTotals t v).income = v.income + incContrib t := by
  rcases ht : t.transaction_type <;>
    simp [applyToCategoryTotals, ht, incContrib]

theorem applyToCategoryTotals_net (t : Transaction) (v : CategoryTotals) :
    (applyToCategoryTotals t v).net
      = (applyToCategoryTotals t v).regular - (applyToCategoryTotals t v).income := by
  rcases ht : t.transaction_type <;> simp [applyToCategoryTotals, ht]

/-- Updating one key of an association list shifts any additive ℚ-measure of
the values by the step's contribution. -/
theorem sumBy_updAssoc (μ : β → ℚ) (k : String) (f : β → β) (z : β) (c : ℚ)
    (hf : ∀ v, μ (f v) = μ v + c) (hz : μ z = 0) :
    ∀ m : List (String × β),
      ((updAssoc k f z m).map (fun p => μ p.2)).sum
        = (m.map (fun p => μ p.2)).sum + c
  | [] => by simp [updAssoc, hf, hz]
  | (k₀, v) :: rest => by
      by_cases h : k₀ = k
      · simp only [updAssoc, if_pos h, List.map_cons, List.sum_cons, hf]
        ring
      · simp only [updAssoc, if_neg h, List.map_cons, List.sum_cons,
          sumBy_updAssoc μ k f z c hf hz rest]
        ring

/-- Summing an additive measure over the finished category dict gives the sum
of contributions over the record list. -/
theorem catFold_sum (μ : CategoryTotals → ℚ) (contrib : Transaction → ℚ)
    (hf : ∀ t v, μ (applyToCategoryTotals t v) = μ v + contrib t)
    (hz : μ czero = 0) (ts : List Transaction) :
    ((categoryBreakdownFold ts).map (fun p => μ p.2)).sum
      = (ts.map contrib).sum := by
  suffices H : ∀ (l : List Transaction) (acc : List (String × CategoryTotals)),
      ((l.foldl (fun m t => updAssoc t.category (applyToCategoryTotals t) czero m)
        acc).map (fun p => μ p.2)).sum
        = (acc.map (fun p => μ p.2)).sum + (l.map contrib).sum by
    simpa [categoryBreakdownFold] using H ts []
  intro l
  induction l with
  | nil => intro acc; simp
  | cons t rest ih =>
      intro acc
      rw [List.foldl_cons, ih,
        sumBy_updAssoc μ t.category (applyToCategoryTotals t) czero (contrib t)
          (hf t) hz acc]
      simp only [List.map_cons, List.sum_cons]
      ring

/-- Invariant of the category dict: `net` is always `regular - income`. -/
def catNetInv (m : List (String × CategoryTotals)) : Prop :=
  ∀ p ∈ m, p.2.net = p.2.regular - p.2.income

theorem catNetInv_updAssoc {k : String} {t : Transaction} :
    ∀ {m : List (String × CategoryTotals)}, catNetInv m →
      catNetInv (updAssoc k (applyToCategoryTotals t) czero m)
  | [], _ => by
      intro p hp
      simp only [updAssoc] at hp
      rcases List.mem_singleton.mp hp with rfl
      exact applyToCategoryTotals_net t czero
  | (k₀, v) :: rest, h => by
      intro p hp
      simp only [updAssoc] at hp
      by_cases hk : k₀ = k
      · rw [if_pos hk] at hp
        rcases List.mem_cons.mp hp with rfl | hmem
        · exact applyToCategoryTotals_net t v
        · exact h p (List.mem_cons_of_mem _ hmem)
      · rw [if_neg hk] at hp
        rcases List.mem_cons.mp hp with rfl | hmem
        · exact h _ (List.mem_cons_self _ _)
        · exact catNetInv_updAssoc
            (fun q hq => h q (List.mem_cons_of_mem _ hq)) p hmem

theorem catNetInv_fold (ts : List Transaction) :
    catNetInv (categoryBreakdownFold ts) := by
  suffices H : ∀ (l : List Transaction) (acc : List (String × CategoryTotals)),
      catNetInv acc →
      catNetInv (l.foldl
        (fun m t => updAssoc t.category (applyToCategoryTotals t) czero m) acc) by
    exact H ts [] (fun p hp => absurd hp (List.not_mem_nil p))
  intro l
  induction l with
  | nil => intro acc h; simpa using h
  | cons t rest ih =>
      intro acc h
      exact ih _ (catNetInv_updAssoc h)

theorem netSum_of_inv {m : List (String × CategoryTotals)} (h : catNetInv m) :
    (m.map (fun p => p.2.net)).sum
      = (m.map (fun p => p.2.regular)).sum - (m.map (fun p => p.2.income)).sum := by
  induction m with
  | nil => simp
  | cons p rest ih =>
      have h1 := h p (List.mem_cons_self p rest)
      have h2 := ih (fun q hq => h q (List.mem_cons_of_mem p hq))
      simp only [List.map_cons, List.sum_cons, h1, h2]
      ring

theorem sumAmounts_filter_regular (ts : List Transaction) :
    sumAmounts (ts.filter (fun t => decide (t.transaction_type = .regular)))
      = (ts.map regContrib).sum := by
  induction ts with
  | nil => simp [sumAmounts]
  | cons t rest ih =>
      rcases ht : t.transaction_type <;>
        simp [sumAmounts, List.filter_cons, ht, regContrib, ih] at ih ⊢ <;>
        simp [ih]

theorem sumAmounts_filter_income (ts : List Transaction) :
    sumAmounts (ts.filter (fun t => decide (t.transaction_type = .income)))
      = (ts.map incContrib).sum := by
  induction ts with
  | nil => simp [sumAmounts]
  | cons t rest ih =>
      rcases ht : t.transaction_type <;>
        simp [sumAmounts, List.filter_cons, ht, incContrib, ih] at ih ⊢ <;>
        simp [ih]

/-- The summary a non-empty record list produces, field by field (the
`average_amount` and `spending_velocity` fields are whatever their own
computations yield). -/
theorem summarizeTransactions_fields {ts : List Transaction}
    {s : TransactionSummary} (hne : ts ≠ [])
    (hs : summarizeTransactions ts = some s) :
    s.net_amount
        = sumAmounts (ts.filter (fun t => decide (t.transaction_type = .regular)))
          - sumAmounts (ts.filter (fun t => decide (t.transaction_type = .income))) ∧
    s.category_breakdown = categoryBreakdownFold ts ∧
    s.transaction_count = ts.length ∧
    s.regular_count
      = (ts.filter (fun t => decide (t.transaction_type = .regular))).length ∧
    s.income_count
      = (ts.filter (fun t => decide (t.transaction_type = .income))).length ∧
    s.transfer_count
      = (ts.filter (fun t => decide (t.transaction_type = .internal_transfer))).length := by
  have hempty : ts.isEmpty = false := by
    cases ts
    · exact absurd rfl hne
    · rfl
  have hlen : 0 < ts.length := by
    cases ts
    · exact absurd rfl hne
    · simp
  have hcast : ((ts.length : ℚ)) ≠ 0 :=
    Nat.cast_ne_zero.mpr (Nat.pos_iff_ne_zero.mp hlen)
  simp only [summarizeTransactions, hempty] at hs
  rw [if_neg (by simp : ¬ (false = true))] at hs
  rw [condDivNat_eq_some hlen, bindB_some] at hs
  rcases hv : calculate_spending_velocity ts with _ | vel
  · rw [hv, bindB_none] at hs
    cases hs
  · rw [hv, bindB_some] at hs
    injection hs with hs2
    subst hs2
    exact ⟨rfl, rfl, rfl, rfl, rfl, rfl⟩

/-- C3: For every non-empty record list R, the per-category nets of the
category breakdown sum to the summary's `net_amount` (each category's net is
its regular sum minus its income sum, transfers excluded; overall net is
`sum(regular.amount) - sum(income.amount)`). -/
theorem category_breakdown_net_consistency (ts : List Transaction)
    (hne : ts ≠ []) (s : TransactionSummary)
    (hs : summarizeTransactions ts = some s) :
    (s.category_breakdown.map (fun p => p.2.net)).sum = s.net_amount := by
  obtain ⟨hnet, hcb, -, -, -, -⟩ := summarizeTransactions_fields hne hs
  rw [hnet, hcb,
    netSum_of_inv (catNetInv_fold ts),
    catFold_sum (fun v => v.regular) regContrib applyToCategoryTotals_regular rfl ts,
    catFold_sum (fun v => v.income) incContrib applyToCategoryTotals_income rfl ts,
    sumAmounts_filter_regular ts, sumAmounts_filter_income ts]

/-! ## Totality of the guarded aggregations -/

theorem bind_isSome {o : Option α} {f : α → Option β} (h1 : o.isSome)
    (h2 : ∀ a, (f a).isSome) : (o >>= f).isSome := by
  rcases Option.isSome_iff_exists.mp h1 with ⟨a, rfl⟩
  rw [bindB_some]
  exact h2 a

theorem condDivInt_isSome (a : ℚ) (d : ℤ) : (condDivInt a d).isSome := by
  unfold condDivInt
  by_cases h : 0 < d
  · rw [if_pos h]
    exact divQ_isSome (Int.cast_ne_zero.mpr (ne_of_gt h))
  · rw [if_neg h]
    rfl

theorem condDivQ_isSome (a w : ℚ) : (condDivQ a w).isSome := by
  unfold condDivQ
  by_cases h : 0 < w
  · rw [if_pos h]
    exact divQ_isSome (ne_of_gt h)
  · rw [if_neg h]
    rfl

theorem condDivNat_isSome (a : ℚ) (n : Nat) : (condDivNat a n).isSome := by
  unfold condDivNat
  by_cases h : 0 < n
  · rw [if_pos h]
    exact divQ_isSome (Nat.cast_ne_zero.mpr (Nat.pos_iff_ne_zero.mp h))
  · rw [if_neg h]
    rfl

/-- `_calculate_spending_velocity` never raises: its divisions are all
guarded (or by the non-zero constants 7 and 30), and min/max are only taken
of a non-empty list. -/
theorem calculate_spending_velocity_isSome (ts : List Transaction) :
    (calculate_spending_velocity ts).isSome := by
  simp only [calculate_spending_velocity]
  by_cases h1 : ts.isEmpty
  · rw [if_pos h1]
    rfl
  · rw [if_neg h1]
    by_cases h2 :
      (ts.filter (fun t => decide (t.transaction_type = .regular))).isEmpty
    · rw [if_pos h2]
      rfl
    · rw [if_neg h2]
      have hmap :
          (ts.filter (fun t => decide (t.transaction_type = .regular))).map
            (·.date) ≠ [] := by
        intro hmapnil
        exact h2 (by simpa [List.isEmpty_iff] using List.map_eq_nil.mp hmapnil)
      refine bind_isSome (pyMinDate_isSome hmap) (fun mn => ?_)
      refine bind_isSome (pyMaxDate_isSome hmap) (fun mx => ?_)
      refine bind_isSome (divQ_isSome (by norm_num)) (fun tw => ?_)
      refine bind_isSome (divQ_isSome (by norm_num)) (fun tm => ?_)
      refine bind_isSome (condDivInt_isSome _ _) (fun d => ?_)
      refine bind_isSome (condDivQ_isSome _ _) (fun w => ?_)
      refine bind_isSome (condDivQ_isSome _ _) (fun m => ?_)
      rfl

/-- `get_transaction_summary`'s aggregation never raises. -/
theorem summarizeTransactions_isSome (ts : List Transaction) :
    (summarizeTransactions ts).isSome := by
  simp only [summarizeTransactions]
  by_cases h1 : ts.isEmpty
  · rw [if_pos h1]
    rfl
  · rw [if_neg h1]
    refine bind_isSome (condDivNat_isSome _ _) (fun avg => ?_)
    refine bind_isSome (calculate_spending_velocity_isSome ts) (fun v => ?_)
    rfl

theorem get_transaction_summary_isSome (q : TransactionQuery)
    (ts : List Transaction) : (get_transaction_summary q ts).isSome :=
  summarizeTransactions_isSome (filterTransactions q ts)

/-- Witness for `category_breakdown_net_consistency` on a concrete one-record
list. -/
theorem category_breakdown_net_consistency_witness :
    [txAmount5] ≠ [] ∧
      ((((summarizeTransactions [txAmount5]).get
          (summarizeTransactions_isSome [txAmount5])).category_breakdown).map
        (fun p => p.2.net)).sum
        = ((summarizeTransactions [txAmount5]).get
            (summarizeTransactions_isSome [txAmount5])).net_amount :=
  ⟨by simp, category_breakdown_net_consistency [txAmount5] (by simp) _
    (Option.some_get _).symm⟩

/-! ## Claim C10: transaction-count partition -/

theorem length_partition_by_type (l : List Transaction) :
    l.length
      = (l.filter (fun t => decide (t.transaction_type = .regular))).length
        + (l.filter (fun t => decide (t.transaction_type = .income))).length
        + (l.filter (fun t => decide (t.transaction_type = .internal_transfer))).length := by
  induction l with
  | nil => simp
  | cons t rest ih =>
      rcases ht : t.transaction_type <;>
        simp [List.filter_cons, ht, ih] <;> omega

/-- C10: the summary's `transaction_count` equals
`regular_count + income_count + transfer_count`, and equals the length of the
filtered record list (every record has exactly one of the three transaction
types). -/
theorem summary_counts_partition (q : TransactionQuery) (ts : List Transaction)
    (s : TransactionSummary) (hs : get_transaction_summary q ts = some s) :
    s.transaction_count = s.regular_count + s.income_count + s.transfer_count ∧
      s.transaction_count = (filterTransactions q ts).length := by
  unfold get_transaction_summary at hs
  by_cases hfe : (filterTransactions q ts).isEmpty
  · have hnil : filterTransactions q ts = [] := List.isEmpty_iff.mp hfe
    rw [hnil] at hs
    have hE : summarizeTransactions [] = some emptySummary := rfl
    rw [hE] at hs
    injection hs with h2
    subst h2
    exact ⟨rfl, by rw [hnil]; rfl⟩
  · have hne : filterTransactions q ts ≠ [] := by
      simpa [List.isEmpty_iff] using hfe
    obtain ⟨-, -, hc, hr, hi, htr⟩ := summarizeTransactions_fields hne hs
    refine ⟨?_, hc⟩
    rw [hc, hr, hi, htr]
    exact length_partition_by_type (filterTransactions q ts)

/-- Witness for `summary_counts_partition` at a concrete query and record. -/
theorem summary_counts_partition_witness :
    ((get_transaction_summary {} [txAmount5]).get
        (get_transaction_summary_isSome {} [txAmount5])).transaction_count
      = ((get_transaction_summary {} [txAmount5]).get
          (get_transaction_summary_isSome {} [txAmount5])).regular_count
        + ((get_transaction_summary {} [txAmount5]).get
            (get_transaction_summary_isSome {} [txAmount5])).income_count
        + ((get_transaction_summary {} [txAmount5]).get
            (get_transaction_summary_isSome {} [txAmount5])).transfer_count ∧
      ((get_transaction_summary {} [txAmount5]).get
          (get_transaction_summary_isSome {} [txAmount5])).transaction_count
        = (filterTransactions {} [txAmount5]).length :=
  summary_counts_partition {} [txAmount5] _ (Option.some_get _).symm

/-! ## Tag–category overlap (`calculate_category_tag_overlap`,
data_service.py 464-532) -/

/-- The per-category value of the `category_overlaps` dict. -/
structure CatOverlapStats where
  amount : ℚ
  transaction_count : Nat
  percentage_of_tag : ℚ
  deriving DecidableEq, Repr

/-- The per-transaction projection embedded in each venn entry
(data_service.py 515-523). -/
structure TxRef where
  id : String
  description : String
  amount : ℚ
  date : DateTime
  merchant : Option String
  deriving DecidableEq, Repr

/-- One `venn_data` entry. -/
structure VennEntry where
  set_name : String
  category : String
  tag : String
  amount : ℚ
  transaction_count : Nat
  percentage : ℚ
  transactions : List TxRef
  deriving DecidableEq, Repr

/-- The result dict of `calculate_category_tag_overlap`.
`total_tagged_transactions` is `Option`-valued because the degenerate
early-return dict (lines 475-480) omits that key. -/
structure CategoryTagOverlap where
  target_tag : String
  total_tagged_amount : ℚ
  total_tagged_transactions : Option Nat
  category_overlaps : List (String × CatOverlapStats)
  venn_data : List VennEntry
  deriving DecidableEq, Repr

/-- Descending-by-amount order for venn entries
(`sorted(venn_data, key=lambda x: x["amount"], reverse=True)`). -/
def vennGE (a b : VennEntry) : Prop := b.amount ≤ a.amount

instance : DecidableRel vennGE :=
  fun a b => inferInstanceAs (Decidable (b.amount ≤ a.amount))

instance : IsTotal VennEntry vennGE := ⟨fun a b => le_total b.amount a.amount⟩

instance : IsTrans VennEntry vennGE := ⟨fun _ _ _ h1 h2 => le_trans h2 h1⟩

/-- `calculate_category_tag_overlap`: select the records carrying the target
tag (case-insensitively), group them by category, and report per-category
amount / count / percentage-of-total, plus the venn entries sorted descending
by amount.  The division by `total_tagged_amount` (line 499) is unguarded, so
a non-empty tagged selection whose amounts sum to zero raises
(`none` here); `category_overlaps` is assembled in the same loop as
`venn_data` and carries the same numbers. -/
def calculate_category_tag_overlap (target_tag : String)
    (transactions : List Transaction) : Option CategoryTagOverlap :=
  if (taggedSelection target_tag transactions).isEmpty then
    some { target_tag := target_tag, total_tagged_amount := 0,
           total_tagged_transactions := none, category_overlaps := [],
           venn_data := [] }
  else do
    let tagged_transactions := taggedSelection target_tag transactions
    let total_tagged_amount := sumAmounts tagged_transactions
    let venn ← mapO (fun kv : String × List Transaction => do
        let pct ← divQ (sumAmounts kv.2) total_tagged_amount
        some { set_name := target_tag ++ " ∩ " ++ titleStr kv.1,
               category := kv.1, tag := target_tag,
               amount := sumAmounts kv.2,
               transaction_count := kv.2.length,
               percentage := pct * 100,
               transactions := kv.2.map (fun t =>
                 ({ id := t.id, description := t.description,
                    amount := t.amount, date := t.date,
                    merchant := t.merchant } : TxRef)) })
      (grpFold (fun t => t.category) tagged_transactions)
    some { target_tag := target_tag,
           total_tagged_amount := total_tagged_amount,
           total_tagged_transactions := some tagged_transactions.length,
           category_overlaps := venn.map (fun e => (e.category,
             ({ amount := e.amount, transaction_count := e.transaction_count,
                percentage_of_tag := e.percentage } : CatOverlapStats))),
           venn_data := venn.insertionSort vennGE }

/-- C7 counterexample: the degenerate result (no record carries the tag)
does *not* carry `total_tagged_transactions = 0` — the early-return dict
omits that key entirely (modelled as `none`), refuting the claimed "full
structure ... (including total_tagged_transactions = 0)". -/
theorem overlap_missing_tag_counterexample :
    (calculate_category_tag_overlap "ghost" []).map
        (fun r => r.total_tagged_transactions) = some none ∧
      (calculate_category_tag_overlap "ghost" []).map
        (fun r => r.total_tagged_transactions) ≠ some (some 0) := by
  exact ⟨rfl, by decide⟩

/-- Shape of the degenerate (no tagged record) overlap result. -/
theorem overlap_degenerate_shape (g : String) (ts : List Transaction)
    (h : taggedSelection g ts = []) :
    calculate_category_tag_overlap g ts
      = some { target_tag := g, total_tagged_amount := 0,
               total_tagged_transactions := none, category_overlaps := [],
               venn_data := [] } := by
  unfold calculate_category_tag_overlap
  rw [if_pos (by rw [h]; rfl)]

/-- C7 amended: when no record of R carries the tag case-insensitively,
`tagCategoryOverlap` never raises and returns
`{target_tag, total_tagged_amount: 0, category_overlaps: {}, venn_data: []}`
— with the `total_tagged_transactions` key absent (not 0). -/
theorem overlap_missing_tag_degenerate (g : String) (ts : List Transaction)
    (h : taggedSelection g ts = []) :
    calculate_category_tag_overlap g ts
      = some { target_tag := g, total_tagged_amount := 0,
               total_tagged_transactions := none, category_overlaps := [],
               venn_data := [] } :=
  overlap_degenerate_shape g ts h

/-- Witness for `overlap_missing_tag_degenerate`: a record list whose only
record carries an unrelated tag. -/
theorem overlap_missing_tag_degenerate_witness :
    calculate_category_tag_overlap "trip"
        [{ id := "w7", amount := 12, description := "gym", merchant := none,
           category := "health", date := ⟨2024, 2, 2⟩, tags := ["fitness"],
           transaction_type := .regular, excluded := false }]
      = some { target_tag := "trip", total_tagged_amount := 0,
               total_tagged_transactions := none, category_overlaps := [],
               venn_data := [] } :=
  overlap_missing_tag_degenerate "trip" _ (by decide)

/-! ## Claim C1: grouping, percentages and ordering of the overlap -/

/-- The venn entry the loop body builds for one category group, given the
running total (proof-side description of the loop body). -/
def vennOf (g : String) (total : ℚ) (kv : String × List Transaction) :
    VennEntry :=
  { set_name := g ++ " ∩ " ++ titleStr kv.1,
    category := kv.1, tag := g,
    amount := sumAmounts kv.2,
    transaction_count := kv.2.length,
    percentage := (sumAmounts kv.2 / total) * 100,
    transactions := kv.2.map (fun t =>
      ({ id := t.id, description := t.description, amount := t.amount,
         date := t.date, merchant := t.merchant } : TxRef)) }

theorem sum_map_mul_right (l : List α) (f : α → ℚ) (c : ℚ) :
    (l.map (fun x => f x * c)).sum = (l.map f).sum * c := by
  induction l with
  | nil => simp
  | cons x xs ih => simp [ih, add_mul]

/-- Shape of the non-degenerate overlap result. -/
theorem calculate_category_tag_overlap_eq {g : String} {ts : List Transaction}
    (hne : taggedSelection g ts ≠ [])
    (hnz : sumAmounts (taggedSelection g ts) ≠ 0) :
    calculate_category_tag_overlap g ts = some
      { target_tag := g,
        total_tagged_amount := sumAmounts (taggedSelection g ts),
        total_tagged_transactions := some (taggedSelection g ts).length,
        category_overlaps :=
          ((grpFold (fun t => t.category) (taggedSelection g ts)).map
            (vennOf g (sumAmounts (taggedSelection g ts)))).map
            (fun e => (e.category,
              ({ amount := e.amount, transaction_count := e.transaction_count,
                 percentage_of_tag := e.percentage } : CatOverlapStats))),
        venn_data :=
          ((grpFold (fun t => t.category) (taggedSelection g ts)).map
            (vennOf g (sumAmounts (taggedSelection g ts)))).insertionSort
            vennGE } := by
  simp only [calculate_category_tag_overlap]
  rw [if_neg (by simpa [List.isEmpty_iff] using hne)]
  rw [mapO_eq_map (g := vennOf g (sumAmounts (taggedSelection g ts)))
    (fun kv _ => by rw [divQ_eq_some hnz, bindB_some]; rfl)]
  rw [bindB_some]

/-- Totality of the overlap whenever the tagged amounts do not sum to zero. -/
theorem calculate_category_tag_overlap_isSome {g : String}
    {ts : List Transaction}
    (hnz : sumAmounts (taggedSelection g ts) ≠ 0) :
    (calculate_category_tag_overlap g ts).isSome := by
  by_cases hne : taggedSelection g ts = []
  · rw [overlap_degenerate_shape g ts hne]
    rfl
  · rw [calculate_category_tag_overlap_eq hne hnz]
    rfl

/-- C1 (amended): when some record carries the tag and the tagged amounts sum
to a non-zero value, `tagCategoryOverlap` groups the tagged selection by
category: every venn entry's amount is the sum of its category's amounts,
its percentage is `100 * amount / total_tagged_amount`, an entry exists for
exactly the categories present in the tagged selection, the percentages sum
to 100, and the entries are sorted descending by amount. -/
theorem tag_category_overlap_grouping (g : String) (ts : List Transaction)
    (hne : taggedSelection g ts ≠ [])
    (hnz : sumAmounts (taggedSelection g ts) ≠ 0)
    (r : CategoryTagOverlap)
    (hr : calculate_category_tag_overlap g ts = some r) :
    r.total_tagged_amount = sumAmounts (taggedSelection g ts) ∧
    (∀ e ∈ r.venn_data,
      e.amount = sumAmounts ((taggedSelection g ts).filter
        (fun t => t.category == e.category)) ∧
      e.transaction_count = ((taggedSelection g ts).filter
        (fun t => t.category == e.category)).length ∧
      e.percentage = 100 * e.amount / r.total_tagged_amount) ∧
    (∀ c : String,
      (∃ t ∈ taggedSelection g ts, t.category = c) ↔
        ∃ e ∈ r.venn_data, e.category = c) ∧
    (r.venn_data.map (fun e => e.percentage)).sum = 100 ∧
    r.venn_data.Sorted vennGE := by
  rw [calculate_category_tag_overlap_eq hne hnz] at hr
  injection hr with h
  subst h
  have hperm := List.perm_insertionSort vennGE
    ((grpFold (fun t => t.category) (taggedSelection g ts)).map
      (vennOf g (sumAmounts (taggedSelection g ts))))
  refine ⟨rfl, ?_, ?_, ?_, ?_⟩
  · intro e he
    have he' := hperm.mem_iff.mp he
    rcases List.mem_map.mp he' with ⟨kv, hkv, rfl⟩
    obtain ⟨hfeq, -⟩ := grpFold_entry_eq_filter hkv
    simp only [vennOf]
    refine ⟨by rw [← hfeq], by rw [← hfeq], ?_⟩
    show (sumAmounts kv.2 / sumAmounts (taggedSelection g ts)) * 100
      = 100 * sumAmounts kv.2 / sumAmounts (taggedSelection g ts)
    ring
  · intro c
    constructor
    · rintro ⟨t, htT, hcat⟩
      have hmemf : t ∈ (taggedSelection g ts).filter
          (fun x => x.category == c) :=
        List.mem_filter.mpr ⟨htT, by simp [hcat]⟩
      have hf : ¬ ((taggedSelection g ts).filter
          (fun x => x.category == c)).isEmpty := by
        intro hEmpty
        rw [List.isEmpty_iff] at hEmpty
        rw [hEmpty] at hmemf
        cases hmemf
      have hmem := @grpFold_mem_of_filter_ne Transaction
        (fun t : Transaction => t.category) (taggedSelection g ts) c hf
      exact ⟨vennOf g (sumAmounts (taggedSelection g ts)) (c, _),
        hperm.mem_iff.mpr (List.mem_map_of_mem _ hmem), rfl⟩
    · rintro ⟨e, he, hcat⟩
      have he' := hperm.mem_iff.mp he
      rcases List.mem_map.mp he' with ⟨kv, hkv, rfl⟩
      obtain ⟨hfeq, hfne⟩ := grpFold_entry_eq_filter hkv
      rcases List.exists_mem_of_ne_nil kv.2 hfne with ⟨t, ht⟩
      rw [hfeq] at ht
      have hft := List.mem_filter.mp ht
      refine ⟨t, hft.1, ?_⟩
      have : t.category = kv.1 := by simpa using hft.2
      rw [this]
      exact hcat
  · rw [(hperm.map (fun e => e.percentage)).sum_eq, List.map_map]
    rw [List.map_congr_left (g := fun p : String × List Transaction =>
      (p.2.map (·.amount)).sum * (100 / sumAmounts (taggedSelection g ts)))
      (fun kv _ => by
        show (sumAmounts kv.2 / sumAmounts (taggedSelection g ts)) * 100 = _
        show _ = (kv.2.map (·.amount)).sum
          * (100 / sumAmounts (taggedSelection g ts))
        rw [show (kv.2.map (·.amount)).sum = sumAmounts kv.2 from rfl]
        ring)]
    rw [sum_map_mul_right _ (fun p : String × List Transaction =>
      (p.2.map (·.amount)).sum) (100 / sumAmounts (taggedSelection g ts))]
    rw [grpFold_sum_measure (fun t : Transaction => t.category) (·.amount)
      (taggedSelection g ts)]
    rw [show ((taggedSelection g ts).map (·.amount)).sum
      = sumAmounts (taggedSelection g ts) from rfl]
    field_simp
  · exact List.sorted_insertionSort vennGE _

theorem divQ_zero (a : ℚ) : divQ a 0 = none := by
  simp [divQ]

theorem mapO_cons_none {f : α → Option β} {x : α} {xs : List α}
    (h : f x = none) : mapO f (x :: xs) = none := by
  simp [mapO, h]

/-- A record that carries the tag `"t"` but has amount 0. -/
def txZeroTagged : Transaction :=
  { id := "z", amount := 0, description := "zero", merchant := none,
    category := "other", date := ⟨2024, 1, 1⟩, tags := ["t"],
    transaction_type := .regular, excluded := false }

/-- The unguarded division: a non-empty tagged selection whose amounts sum
to zero makes `calculate_category_tag_overlap` raise. -/
theorem overlap_zero_total_eq_none {g : String} {ts : List Transaction}
    (hne : taggedSelection g ts ≠ [])
    (h0 : sumAmounts (taggedSelection g ts) = 0) :
    calculate_category_tag_overlap g ts = none := by
  simp only [calculate_category_tag_overlap]
  rw [if_neg (by simpa [List.isEmpty_iff] using hne)]
  rcases List.exists_mem_of_ne_nil _ hne with ⟨t, ht⟩
  have hfilter : ¬ ((taggedSelection g ts).filter
      (fun x => x.category == t.category)).isEmpty := by
    intro hE
    rw [List.isEmpty_iff] at hE
    have hmf : t ∈ (taggedSelection g ts).filter
        (fun x => x.category == t.category) :=
      List.mem_filter.mpr ⟨ht, by simp⟩
    rw [hE] at hmf
    cases hmf
  have hgent := @grpFold_mem_of_filter_ne Transaction
    (fun x : Transaction => x.category) (taggedSelection g ts) t.category
    hfilter
  rcases hgroups : grpFold (fun x : Transaction => x.category)
      (taggedSelection g ts) with _ | ⟨kv, rest⟩
  · rw [hgroups] at hgent
    cases hgent
  · rw [mapO_cons_none (by simp [h0, divQ_zero]), bindB_none]

/-- C1 counterexample: a record carries the tag, yet the overlap *raises*
(`none`): the unguarded division by `total_tagged_amount` hits a zero total,
so no grouping report is produced at all, refuting the claim for this input. -/
theorem tag_category_overlap_zero_counterexample :
    (∃ t ∈ [txZeroTagged], toLowerStr "t" ∈ t.tags.map toLowerStr) ∧
      calculate_category_tag_overlap "t" [txZeroTagged] = none := by
  refine ⟨⟨txZeroTagged, by decide, by decide⟩, ?_⟩
  refine overlap_zero_total_eq_none (by decide) ?_
  rw [show taggedSelection "t" [txZeroTagged] = [txZeroTagged] by decide]
  simp [sumAmounts, txZeroTagged]

/-- The spec's own scenario: two `"trip"`-tagged records, food 40 and
transportation 60. -/
def wTrip1 : Transaction :=
  { id := "v1", amount := 40, description := "dinner", merchant := none,
    category := "food", date := ⟨2024, 5, 1⟩, tags := ["trip"],
    transaction_type := .regular, excluded := false }

def wTrip2 : Transaction :=
  { id := "v2", amount := 60, description := "taxi", merchant := none,
    category := "transportation", date := ⟨2024, 5, 2⟩, tags := ["trip"],
    transaction_type := .regular, excluded := false }

theorem wTrips_tagged_ne : taggedSelection "trip" [wTrip1, wTrip2] ≠ [] := by
  decide

theorem wTrips_sum_ne :
    sumAmounts (taggedSelection "trip" [wTrip1, wTrip2]) ≠ 0 := by
  rw [show taggedSelection "trip" [wTrip1, wTrip2] = [wTrip1, wTrip2] by decide]
  show (40 : ℚ) + (60 + 0) ≠ 0
  norm_num

/-- Witness for `tag_category_overlap_grouping` on the spec's scenario. -/
theorem tag_category_overlap_grouping_witness :
    ((calculate_category_tag_overlap "trip" [wTrip1, wTrip2]).get
        (calculate_category_tag_overlap_isSome wTrips_sum_ne)).total_tagged_amount
      = sumAmounts (taggedSelection "trip" [wTrip1, wTrip2]) ∧
    (∀ e ∈ ((calculate_category_tag_overlap "trip" [wTrip1, wTrip2]).get
        (calculate_category_tag_overlap_isSome wTrips_sum_ne)).venn_data,
      e.amount = sumAmounts ((taggedSelection "trip" [wTrip1, wTrip2]).filter
        (fun t => t.category == e.category)) ∧
      e.transaction_count = ((taggedSelection "trip" [wTrip1, wTrip2]).filter
        (fun t => t.category == e.category)).length ∧
      e.percentage = 100 * e.amount /
        ((calculate_category_tag_overlap "trip" [wTrip1, wTrip2]).get
          (calculate_category_tag_overlap_isSome wTrips_sum_ne)).total_tagged_amount) ∧
    (∀ c : String,
      (∃ t ∈ taggedSelection "trip" [wTrip1, wTrip2], t.category = c) ↔
        ∃ e ∈ ((calculate_category_tag_overlap "trip" [wTrip1, wTrip2]).get
          (calculate_category_tag_overlap_isSome wTrips_sum_ne)).venn_data,
          e.category = c) ∧
    ((((calculate_category_tag_overlap "trip" [wTrip1, wTrip2]).get
        (calculate_category_tag_overlap_isSome wTrips_sum_ne)).venn_data).map
      (fun e => e.percentage)).sum = 100 ∧
    (((calculate_category_tag_overlap "trip" [wTrip1, wTrip2]).get
        (calculate_category_tag_overlap_isSome wTrips_sum_ne)).venn_data).Sorted
      vennGE :=
  tag_category_overlap_grouping "trip" [wTrip1, wTrip2] wTrips_tagged_ne
    wTrips_sum_ne _ (Option.some_get _).symm

/-! ## Multi-tag × multi-category overlap
(`calculate_multi_tag_category_overlap`, data_service.py 534-581) -/

/-- One overlap entry of the result. -/
structure TCOverlapEntry where
  tag : String
  category : String
  amount : ℚ
  transaction_count : Nat
  transactions : List Transaction
  deriving DecidableEq, Repr

/-- The result dict. -/
structure MultiTagOverlapResult where
  tags : List String
  categories : List String
  overlaps : List TCOverlapEntry
  total_analyzed_transactions : Nat
  deriving DecidableEq, Repr

/-- Descending-by-amount order for overlap entries. -/
def overlapGE (a b : TCOverlapEntry) : Prop := b.amount ≤ a.amount

instance : DecidableRel overlapGE :=
  fun a b => inferInstanceAs (Decidable (b.amount ≤ a.amount))

instance : IsTotal TCOverlapEntry overlapGE := ⟨fun a b => le_total b.amount a.amount⟩

instance : IsTrans TCOverlapEntry overlapGE := ⟨fun _ _ _ h1 h2 => le_trans h2 h1⟩

/-- The intersection the loop body computes:
`[t for t in tag_transactions if t in category_transactions]`, where the
membership test is value equality (the records are pydantic models, compared
field-wise — here `DecidableEq Transaction`). -/
def tcIntersection (tag category : String) (transactions : List Transaction) :
    List Transaction :=
  (taggedSelection tag transactions).filter
    (fun t => decide (t ∈ transactions.filter (fun u => u.category == category)))

/-- `calculate_multi_tag_category_overlap`: for every (tag, category) pair of
the requested cross-product (duplicate dict keys collapse to their first
occurrence), emit the non-empty intersections, sorted descending by amount. -/
def calculate_multi_tag_category_overlap (tags categories : List String)
    (transactions : List Transaction) : MultiTagOverlapResult :=
  let overlaps := (firstDedup tags).flatMap (fun tag =>
    (firstDedup categories).filterMap (fun category =>
      if (tcIntersection tag category transactions).isEmpty then none
      else some { tag := tag, category := category,
                  amount := sumAmounts (tcIntersection tag category transactions),
                  transaction_count :=
                    (tcIntersection tag category transactions).length,
                  transactions := tcIntersection tag category transactions }))
  { tags := tags, categories := categories,
    overlaps := overlaps.insertionSort overlapGE,
    total_analyzed_transactions := transactions.length }

/-- The pydantic value-equality membership test is extensionally the plain
conjunction "carries the tag AND belongs to the category": value-equal
records agree on `category`, so each record of the tagged list passes the
membership test iff its own category matches. -/
theorem tcIntersection_eq_filter (tag c : String) (ts : List Transaction) :
    tcIntersection tag c ts
      = ts.filter (fun t =>
          decide (toLowerStr tag ∈ t.tags.map toLowerStr)
            && (t.category == c)) := by
  unfold tcIntersection taggedSelection
  rw [List.filter_filter]
  apply List.filter_congr
  intro t ht
  have hmem : decide (t ∈ ts.filter (fun u => u.category == c))
      = (t.category == c) := by
    by_cases hc : (t.category == c) = true
    · simp [List.mem_filter, ht, hc]
    · simp [List.mem_filter, hc]
  rw [hmem, Bool.and_comm]

/-- C4: multiTagCategoryOverlap emits one entry per (tag, category) pair of
T × C with a non-empty intersection; each entry's transaction list is exactly
the records of R carrying the tag case-insensitively AND having that
category, each individual record contributing once (value-equal
near-duplicates each keep their own occurrence in the list); entries are
sorted descending by summed amount. -/
theorem multi_tag_overlap_correct (T C : List String) (ts : List Transaction) :
    (∀ e ∈ (calculate_multi_tag_category_overlap T C ts).overlaps,
      e.tag ∈ T ∧ e.category ∈ C ∧
      e.transactions = ts.filter (fun t =>
        decide (toLowerStr e.tag ∈ t.tags.map toLowerStr)
          && (t.category == e.category)) ∧
      e.transactions ≠ [] ∧
      e.amount = sumAmounts e.transactions ∧
      e.transaction_count = e.transactions.length) ∧
    (∀ g ∈ T, ∀ c ∈ C,
      (∃ t ∈ ts, toLowerStr g ∈ t.tags.map toLowerStr ∧ t.category = c) →
        ∃ e ∈ (calculate_multi_tag_category_overlap T C ts).overlaps,
          e.tag = g ∧ e.category = c) ∧
    (calculate_multi_tag_category_overlap T C ts).overlaps.Sorted overlapGE := by
  simp only [calculate_multi_tag_category_overlap]
  have hperm := List.perm_insertionSort overlapGE
    ((firstDedup T).flatMap (fun tag =>
      (firstDedup C).filterMap (fun category =>
        if (tcIntersection tag category ts).isEmpty then none
        else some { tag := tag, category := category,
                    amount := sumAmounts (tcIntersection tag category ts),
                    transaction_count := (tcIntersection tag category ts).length,
                    transactions := tcIntersection tag category ts })))
  refine ⟨?_, ?_, ?_⟩
  · intro e he
    have he' := hperm.mem_iff.mp he
    rcases List.mem_flatMap.mp he' with ⟨g, hg, hefm⟩
    rcases List.mem_filterMap.mp hefm with ⟨c, hc, hfc⟩
    by_cases hempty : (tcIntersection g c ts).isEmpty
    · rw [if_pos hempty] at hfc
      cases hfc
    · rw [if_neg hempty] at hfc
      injection hfc with hfc
      subst hfc
      refine ⟨mem_firstDedup.mp hg, mem_firstDedup.mp hc,
        tcIntersection_eq_filter g c ts, ?_, rfl, rfl⟩
      simpa [List.isEmpty_iff] using hempty
  · intro g hg c hc ⟨t, ht, htag, hcat⟩
    have hmemI : t ∈ tcIntersection g c ts := by
      unfold tcIntersection taggedSelection
      refine List.mem_filter.mpr ⟨List.mem_filter.mpr ⟨ht, by simpa using htag⟩, ?_⟩
      simp only [decide_eq_true_eq]
      exact List.mem_filter.mpr ⟨ht, by simp [hcat]⟩
    have hempty : ¬ (tcIntersection g c ts).isEmpty := by
      intro hEmpty
      rw [List.isEmpty_iff] at hEmpty
      rw [hEmpty] at hmemI
      cases hmemI
    refine ⟨{ tag := g, category := c,
              amount := sumAmounts (tcIntersection g c ts),
              transaction_count := (tcIntersection g c ts).length,
              transactions := tcIntersection g c ts },
      hperm.mem_iff.mpr ?_, rfl, rfl⟩
    refine List.mem_flatMap.mpr ⟨g, mem_firstDedup.mpr hg, ?_⟩
    refine List.mem_filterMap.mpr ⟨c, mem_firstDedup.mpr hc, ?_⟩
    rw [if_neg hempty]
  · exact List.sorted_insertionSort overlapGE _

/-- Witness for `multi_tag_overlap_correct` at the concrete cross-product
`["trip"] × ["food"]` over the two-record scenario list. -/
theorem multi_tag_overlap_correct_witness :
    (∀ e ∈ (calculate_multi_tag_category_overlap ["trip"] ["food"]
        [wTrip1, wTrip2]).overlaps,
      e.tag ∈ ["trip"] ∧ e.category ∈ ["food"] ∧
      e.transactions = [wTrip1, wTrip2].filter (fun t =>
        decide (toLowerStr e.tag ∈ t.tags.map toLowerStr)
          && (t.category == e.category)) ∧
      e.transactions ≠ [] ∧
      e.amount = sumAmounts e.transactions ∧
      e.transaction_count = e.transactions.length) ∧
    (∀ g ∈ ["trip"], ∀ c ∈ ["food"],
      (∃ t ∈ [wTrip1, wTrip2], toLowerStr g ∈ t.tags.map toLowerStr ∧
          t.category = c) →
        ∃ e ∈ (calculate_multi_tag_category_overlap ["trip"] ["food"]
            [wTrip1, wTrip2]).overlaps,
          e.tag = g ∧ e.category = c) ∧
    (calculate_multi_tag_category_overlap ["trip"] ["food"]
      [wTrip1, wTrip2]).overlaps.Sorted overlapGE :=
  multi_tag_overlap_correct ["trip"] ["food"] [wTrip1, wTrip2]

/-! ## MBA insight generator (`get_mba_insights`,
`_group_mba_transactions_by_tags`, `_get_general_insights`,
data_service.py 185-325)

`MBAInsight`'s display-only string fields (`title`, `description`,
`recommendation`) are pure formatting of the numbers carried in
`data_support` and are omitted from the model; the numeric payload,
`confidence_score` and `priority` are kept. -/

/-- The heterogeneous `data_support` dicts of the four insight shapes. -/
inductive MBADataSupport where
  | totalOnly (total_amount : ℚ) (transaction_count : Nat)
  | group (total_amount avg_amount : ℚ) (transaction_count : Nat)
      (min_date max_date : DateTime)
  | trends (avg_monthly : ℚ) (max_month : String) (max_amount : ℚ)
  | tuition (total_amount : ℚ) (payment_count : Nat)
  deriving DecidableEq, Repr

structure MBAInsight where
  category : String
  data_support : MBADataSupport
  confidence_score : ℚ
  priority : String
  deriving DecidableEq, Repr

/-- `[tag.lower() for tag in transaction.tags if tag.lower() != "kellogg"]`. -/
def nonKelloggTags (t : Transaction) : List String :=
  (t.tags.map toLowerStr).filter (fun g => g ≠ "kellogg")

/-- The group key a transaction lands under: its first non-marker tag, or the
catch-all `"general_activities"` when it has no other tag. -/
def mbaKey (t : Transaction) : String :=
  match nonKelloggTags t with
  | [] => "general_activities"
  | g :: _ => g

/-- One loop iteration of `_group_mba_transactions_by_tags`: thread the
`groups` dict and the `general_activities` list. -/
def groupMbaStep (acc : List (String × List Transaction) × List Transaction)
    (t : Transaction) : List (String × List Transaction) × List Transaction :=
  match nonKelloggTags t with
  | [] => (acc.1, acc.2 ++ [t])
  | g :: _ => (updAssoc g (· ++ [t]) [] acc.1, acc.2)

/-- `_group_mba_transactions_by_tags` (the `all_transactions` parameter of the
source is unused there and dropped).  The final
`groups["general_activities"] = general_activities` is a dict *assignment*:
it overwrites an existing binding of that key. -/
def groupMbaTransactionsByTags (mba_transactions : List Transaction) :
    List (String × List Transaction) :=
  if (mba_transactions.foldl groupMbaStep ([], [])).2.isEmpty then
    (mba_transactions.foldl groupMbaStep ([], [])).1
  else
    setAssoc "general_activities" (mba_transactions.foldl groupMbaStep ([], [])).2
      (mba_transactions.foldl groupMbaStep ([], [])).1

/-- The REGULAR, kellogg-tagged selection `get_mba_insights` analyses. -/
def mbaSelection (ts : List Transaction) : List Transaction :=
  (ts.filter (fun t => decide (t.transaction_type = .regular))).filter
    (fun t => decide (("kellogg" : String) ∈ t.tags.map toLowerStr))

/-- The per-group insight of the loop at data_service.py 216-255: average is
an unguarded division by the group size, date range needs min/max of the
group's dates, and the priority tier is
HIGH/0.9 if total > 1000 or count > 5, else MEDIUM/0.8 if total > 500 or
count > 3, else LOW/0.7. -/
def mbaGroupInsight (kv : String × List Transaction) : Option MBAInsight := do
  let avg ← divQ (sumAmounts kv.2) (kv.2.length : ℚ)
  let mn ← pyMinDate (kv.2.map (·.date))
  let mx ← pyMaxDate (kv.2.map (·.date))
  some { category := kv.1,
         data_support := .group (sumAmounts kv.2) avg kv.2.length mn mx,
         confidence_score :=
           if 1000 < sumAmounts kv.2 ∨ 5 < kv.2.length then 9/10
           else if 500 < sumAmounts kv.2 ∨ 3 < kv.2.length then 8/10
           else 7/10,
         priority :=
           if 1000 < sumAmounts kv.2 ∨ 5 < kv.2.length then "high"
           else if 500 < sumAmounts kv.2 ∨ 3 < kv.2.length then "medium"
           else "low" }

/-- The per-month kellogg totals dict (data_service.py 258-263). -/
def monthlyMba (mba : List Transaction) : List (String × ℚ) :=
  mba.foldl (fun m t => updAssoc (monthKey t.date) (· + t.amount) 0 m) []

/-- Python `max(items, key=lambda x: x[1])`: first maximum by value. -/
def pyMaxBySnd : List (String × ℚ) → Option (String × ℚ)
  | [] => none
  | p :: ps => some (ps.foldl (fun acc x => if acc.2 < x.2 then x else acc) p)

/-- The trends tail of the insight list (emitted only when ≥ 2 distinct
months are present, data_service.py 265-276). -/
def mbaTrendInsights (mba : List Transaction) : Option (List MBAInsight) :=
  if 1 < (monthlyMba mba).length then do
    let avg_monthly ← divQ (((monthlyMba mba).map (·.2)).sum)
      ((monthlyMba mba).length : ℚ)
    let mxp ← pyMaxBySnd (monthlyMba mba)
    some [{ category := "mba_trends",
            data_support := .trends avg_monthly mxp.1 mxp.2,
            confidence_score := 8/10, priority := "medium" }]
  else some []

/-- `_get_general_insights`: the tuition-only fallback. -/
def getGeneralInsights (regular_transactions : List Transaction) :
    List MBAInsight :=
  if (regular_transactions.filter (fun t => t.category == "tuition")).isEmpty
  then []
  else
    [{ category := "tuition",
       data_support := .tuition
         (sumAmounts (regular_transactions.filter
           (fun t => t.category == "tuition")))
         (regular_transactions.filter (fun t => t.category == "tuition")).length,
       confidence_score := 9/10, priority := "high" }]

/-- `get_mba_insights`: headline total, per-group insights, optional monthly
trends; tuition fallback when no kellogg-tagged REGULAR records exist. -/
def get_mba_insights (transactions : List Transaction) :
    Option (List MBAInsight) :=
  if (mbaSelection transactions).isEmpty then
    some (getGeneralInsights
      (transactions.filter (fun t => decide (t.transaction_type = .regular))))
  else do
    let groupInsights ← mapO mbaGroupInsight
      (groupMbaTransactionsByTags (mbaSelection transactions))
    let trendTail ← mbaTrendInsights (mbaSelection transactions)
    some ({ category := "mba_total",
            data_support := .totalOnly (sumAmounts (mbaSelection transactions))
              (mbaSelection transactions).length,
            confidence_score := 95/100, priority := "high" }
      :: groupInsights ++ trendTail)

/-! ## Claim C8: grouping and priority tiers of the insight generator -/

theorem updAssoc_append_values_ne_nil {k : String} {x : α} :
    ∀ {m : List (String × List α)}, (∀ p ∈ m, p.2 ≠ []) →
      ∀ p ∈ updAssoc k (· ++ [x]) [] m, p.2 ≠ []
  | [], _, p, hp => by
      simp only [updAssoc] at hp
      rcases List.mem_singleton.mp hp with rfl
      simp
  | (k₀, v) :: rest, h, p, hp => by
      simp only [updAssoc] at hp
      by_cases hk : k₀ = k
      · rw [if_pos hk] at hp
        rcases List.mem_cons.mp hp with rfl | hm
        · simp
        · exact h p (List.mem_cons_of_mem _ hm)
      · rw [if_neg hk] at hp
        rcases List.mem_cons.mp hp with rfl | hm
        · exact h _ (List.mem_cons_self _ _)
        · exact updAssoc_append_values_ne_nil
            (fun q hq => h q (List.mem_cons_of_mem _ hq)) p hm

theorem mem_setAssoc {k : String} {v : β} :
    ∀ {m : List (String × β)} {p : String × β},
      p ∈ setAssoc k v m → p.2 = v ∨ p ∈ m
  | [], p, hp => by
      simp only [setAssoc] at hp
      rcases List.mem_singleton.mp hp with rfl
      exact Or.inl rfl
  | (k₀, v₀) :: rest, p, hp => by
      simp only [setAssoc] at hp
      by_cases hk : k₀ = k
      · rw [if_pos hk] at hp
        rcases List.mem_cons.mp hp with rfl | hm
        · exact Or.inl rfl
        · exact Or.inr (List.mem_cons_of_mem _ hm)
      · rw [if_neg hk] at hp
        rcases List.mem_cons.mp hp with rfl | hm
        · exact Or.inr (List.mem_cons_self _ _)
        · rcases mem_setAssoc hm with h1 | h2
          · exact Or.inl h1
          · exact Or.inr (List.mem_cons_of_mem _ h2)

theorem setAssoc_of_not_mem_keys {k : String} {v : β} :
    ∀ {m : List (String × β)}, k ∉ keysA m → setAssoc k v m = m ++ [(k, v)]
  | [], _ => rfl
  | (k₀, v₀) :: rest, h => by
      have hk : ¬ k₀ = k := fun hh => h (hh ▸ List.mem_cons_self _ _)
      have h' : k ∉ keysA rest := fun hh => h (List.mem_cons_of_mem _ hh)
      simp only [setAssoc, if_neg hk, List.cons_append]
      rw [setAssoc_of_not_mem_keys h']

theorem groupMbaFold_snd :
    ∀ (l : List Transaction)
      (acc : List (String × List Transaction) × List Transaction),
      (l.foldl groupMbaStep acc).2
        = acc.2 ++ l.filter (fun t => (nonKelloggTags t).isEmpty)
  | [], acc => by simp
  | t :: rest, acc => by
      rw [List.foldl_cons, groupMbaFold_snd rest]
      rcases hnk : nonKelloggTags t with _ | ⟨g, gs⟩
      · simp [groupMbaStep, hnk, List.filter_cons]
      · simp [groupMbaStep, hnk, List.filter_cons]

theorem groupMbaFold_fst :
    ∀ (l : List Transaction)
      (acc : List (String × List Transaction) × List Transaction),
      (l.foldl groupMbaStep acc).1
        = (l.filter (fun t => !(nonKelloggTags t).isEmpty)).foldl
            (grpStep mbaKey) acc.1
  | [], acc => by simp
  | t :: rest, acc => by
      rw [List.foldl_cons, groupMbaFold_fst rest]
      rcases hnk : nonKelloggTags t with _ | ⟨g, gs⟩
      · simp [groupMbaStep, hnk, List.filter_cons]
      · have hkey : mbaKey t = g := by simp [mbaKey, hnk]
        simp [groupMbaStep, hnk, List.filter_cons, grpStep, hkey]

theorem mem_of_mapO {f : α → Option β} :
    ∀ {l : List α} {res : List β}, mapO f l = some res →
      ∀ b ∈ res, ∃ a ∈ l, f a = some b
  | [], res, h, b, hb => by
      simp only [mapO, Option.some.injEq] at h
      subst h
      cases hb
  | x :: xs, res, h, b, hb => by
      simp only [mapO] at h
      rcases hfx : f x with _ | y <;> rw [hfx] at h
      · rw [bindB_none] at h
        cases h
      · rw [bindB_some] at h
        rcases hxs : mapO f xs with _ | ys <;> rw [hxs] at h
        · rw [bindB_none] at h
          cases h
        · rw [bindB_some] at h
          injection h with h
          subst h
          rcases List.mem_cons.mp hb with rfl | hbys
          · exact ⟨x, List.mem_cons_self _ _, hfx⟩
          · rcases mem_of_mapO hxs b hbys with ⟨a, ha, hfa⟩
            exact ⟨a, List.mem_cons_of_mem _ ha, hfa⟩

theorem mem_mapO_of_mem {f : α → Option β} :
    ∀ {l : List α} {res : List β}, mapO f l = some res →
      ∀ a ∈ l, ∃ b ∈ res, f a = some b
  | [], res, _, a, ha => absurd ha (List.not_mem_nil a)
  | x :: xs, res, h, a, ha => by
      simp only [mapO] at h
      rcases hfx : f x with _ | y <;> rw [hfx] at h
      · rw [bindB_none] at h
        cases h
      · rw [bindB_some] at h
        rcases hxs : mapO f xs with _ | ys <;> rw [hxs] at h
        · rw [bindB_none] at h
          cases h
        · rw [bindB_some] at h
          injection h with h
          subst h
          rcases List.mem_cons.mp ha with rfl | haxs
          · exact ⟨y, List.mem_cons_self _ _, hfx⟩
          · rcases mem_mapO_of_mem hxs a haxs with ⟨b, hb, hfb⟩
            exact ⟨b, List.mem_cons_of_mem _ hb, hfb⟩

/-- Every group the mba grouping produces is non-empty. -/
theorem mbaGroups_values_ne_nil {mba : List Transaction} :
    ∀ p ∈ groupMbaTransactionsByTags mba, p.2 ≠ [] := by
  intro p hp
  unfold groupMbaTransactionsByTags at hp
  by_cases hgE : (mba.foldl groupMbaStep ([], [])).2.isEmpty
  · rw [if_pos hgE] at hp
    rw [groupMbaFold_fst mba ([], [])] at hp
    exact grpFold_values_ne_nil
      (show p ∈ grpFold mbaKey
        (mba.filter (fun t => !(nonKelloggTags t).isEmpty)) from hp)
  · rw [if_neg hgE] at hp
    rcases mem_setAssoc hp with h1 | h2
    · rw [h1]
      simpa [List.isEmpty_iff] using hgE
    · rw [groupMbaFold_fst mba ([], [])] at h2
      exact grpFold_values_ne_nil
        (show p ∈ grpFold mbaKey
          (mba.filter (fun t => !(nonKelloggTags t).isEmpty)) from h2)

/-- Keys of the tag-keyed part of the grouping are never the catch-all name,
provided no record's first non-marker tag is literally
`"general_activities"`. -/
theorem grpFold_mba_keys_ne_general {mba : List Transaction}
    (hnc : ∀ t ∈ mba, mbaKey t = "general_activities" → nonKelloggTags t = []) :
    ∀ q ∈ grpFold mbaKey (mba.filter (fun t => !(nonKelloggTags t).isEmpty)),
      q.1 ≠ "general_activities" := by
  intro q hq hga
  obtain ⟨hfeq, hfne⟩ := grpFold_entry_eq_filter hq
  rcases List.exists_mem_of_ne_nil _ hfne with ⟨t, ht⟩
  rw [hfeq] at ht
  have hm := List.mem_filter.mp ht
  have hfl := List.mem_filter.mp hm.1
  have htkey : mbaKey t = q.1 := by simpa using hm.2
  have hnil := hnc t hfl.1 (by rw [htkey, hga])
  rw [hnil] at hfl
  simpa using hfl.2

/-- C8's partition fact: each group of `_group_mba_transactions_by_tags` is
exactly the sublist of the kellogg selection whose group key (first
non-marker tag, or `"general_activities"`) equals the group's key — assuming
no record's first non-marker tag is literally `"general_activities"` (in that
corner the final `groups["general_activities"] = ...` assignment would
overwrite the tag group). -/
theorem mbaGroups_entry_eq_filter {mba : List Transaction}
    (hnc : ∀ t ∈ mba, mbaKey t = "general_activities" → nonKelloggTags t = []) :
    ∀ p ∈ groupMbaTransactionsByTags mba,
      p.2 = mba.filter (fun t => mbaKey t == p.1) := by
  have hflt : ∀ k : String, k ≠ "general_activities" →
      (mba.filter (fun t => !(nonKelloggTags t).isEmpty)).filter
          (fun t => mbaKey t == k)
        = mba.filter (fun t => mbaKey t == k) := by
    intro k hk
    rw [List.filter_filter]
    apply List.filter_congr
    intro t _
    by_cases hkt : mbaKey t = k
    · have hnknil : nonKelloggTags t ≠ [] := by
        intro hnil
        exact hk (by rw [← hkt]; simp [mbaKey, hnil])
      have hie : (nonKelloggTags t).isEmpty = false := by
        rcases hnk : nonKelloggTags t with _ | _
        · exact absurd hnk hnknil
        · rfl
      simp [hkt, hie]
    · simp [hkt]
  intro p hp
  unfold groupMbaTransactionsByTags at hp
  rw [groupMbaFold_snd mba ([], []), List.nil_append] at hp
  rw [groupMbaFold_fst mba ([], [])] at hp
  by_cases hgE : (mba.filter (fun t => (nonKelloggTags t).isEmpty)).isEmpty
  · rw [if_pos hgE] at hp
    have hq := grpFold_entry_eq_filter
      (show p ∈ grpFold mbaKey
        (mba.filter (fun t => !(nonKelloggTags t).isEmpty)) from hp)
    rw [hq.1]
    exact hflt p.1 (grpFold_mba_keys_ne_general hnc p hp)
  · rw [if_neg hgE] at hp
    replace hp : p ∈ setAssoc "general_activities"
        (mba.filter (fun t => (nonKelloggTags t).isEmpty))
        (grpFold mbaKey (mba.filter (fun t => !(nonKelloggTags t).isEmpty))) := hp
    have hganotin : "general_activities" ∉ keysA (grpFold mbaKey
        (mba.filter (fun t => !(nonKelloggTags t).isEmpty))) := by
      intro hin
      rcases List.mem_map.mp hin with ⟨q, hq, hq1⟩
      exact grpFold_mba_keys_ne_general hnc q hq hq1
    rw [setAssoc_of_not_mem_keys hganotin] at hp
    rcases List.mem_append.mp hp with hp1 | hp2
    · have hq := grpFold_entry_eq_filter
        (show p ∈ grpFold mbaKey
          (mba.filter (fun t => !(nonKelloggTags t).isEmpty)) from hp1)
      rw [hq.1]
      exact hflt p.1 (grpFold_mba_keys_ne_general hnc p hp1)
    · rcases List.mem_singleton.mp hp2 with rfl
      show mba.filter (fun t => (nonKelloggTags t).isEmpty)
        = mba.filter (fun t => mbaKey t == "general_activities")
      apply List.filter_congr
      intro t htm
      by_cases hnil : nonKelloggTags t = []
      · simp [hnil, mbaKey]
      · have h1 : (nonKelloggTags t).isEmpty = false := by
          rcases hnk : nonKelloggTags t with _ | _
          · exact absurd hnk hnil
          · rfl
        have h2 : mbaKey t ≠ "general_activities" := fun hga => hnil (hnc t htm hga)
        simp [h1, h2]

theorem mbaGroupInsight_isSome {kv : String × List Transaction}
    (h : kv.2 ≠ []) : (mbaGroupInsight kv).isSome := by
  unfold mbaGroupInsight
  have hlen : (kv.2.length : ℚ) ≠ 0 :=
    Nat.cast_ne_zero.mpr (fun hl => h (List.length_eq_zero.mp hl))
  have hmap : kv.2.map (·.date) ≠ [] :=
    fun hm => h (List.map_eq_nil_iff.mp hm)
  refine bind_isSome (divQ_isSome hlen) (fun avg => ?_)
  refine bind_isSome (pyMinDate_isSome hmap) (fun mn => ?_)
  refine bind_isSome (pyMaxDate_isSome hmap) (fun mx => ?_)
  rfl

theorem pyMaxBySnd_isSome {l : List (String × ℚ)} (h : l ≠ []) :
    (pyMaxBySnd l).isSome := by
  cases l with
  | nil => exact absurd rfl h
  | cons p ps => simp [pyMaxBySnd]

theorem mbaTrendInsights_isSome (mba : List Transaction) :
    (mbaTrendInsights mba).isSome := by
  unfold mbaTrendInsights
  by_cases h : 1 < (monthlyMba mba).length
  · rw [if_pos h]
    have hlen : ((monthlyMba mba).length : ℚ) ≠ 0 :=
      Nat.cast_ne_zero.mpr (by omega)
    have hne : monthlyMba mba ≠ [] := by
      intro hnil
      rw [hnil] at h
      simp at h
    refine bind_isSome (divQ_isSome hlen) (fun avg => ?_)
    refine bind_isSome (pyMaxBySnd_isSome hne) (fun mxp => ?_)
    rfl
  · rw [if_neg h]
    rfl

/-- `get_mba_insights` never raises. -/
theorem get_mba_insights_isSome (ts : List Transaction) :
    (get_mba_insights ts).isSome := by
  simp only [get_mba_insights]
  by_cases h : (mbaSelection ts).isEmpty
  · rw [if_pos h]
    rfl
  · rw [if_neg h]
    refine bind_isSome (mapO_isSome ?_) (fun gis => ?_)
    · intro kv hkv
      exact mbaGroupInsight_isSome (mbaGroups_values_ne_nil kv hkv)
    refine bind_isSome (mbaTrendInsights_isSome (mbaSelection ts))
      (fun tail => ?_)
    rfl

/-- What one successful `mbaGroupInsight` looks like. -/
theorem mbaGroupInsight_spec {kv : String × List Transaction} {i : MBAInsight}
    (h : mbaGroupInsight kv = some i) :
    i.category = kv.1 ∧
    (∃ avg mn mx, i.data_support
      = .group (sumAmounts kv.2) avg kv.2.length mn mx) ∧
    i.priority = (if 1000 < sumAmounts kv.2 ∨ 5 < kv.2.length then "high"
      else if 500 < sumAmounts kv.2 ∨ 3 < kv.2.length then "medium"
      else "low") ∧
    i.confidence_score
      = (if 1000 < sumAmounts kv.2 ∨ 5 < kv.2.length then 9/10
        else if 500 < sumAmounts kv.2 ∨ 3 < kv.2.length then 8/10
        else 7/10) := by
  simp only [mbaGroupInsight] at h
  rcases hd : divQ (sumAmounts kv.2) (kv.2.length : ℚ) with _ | avg <;>
    rw [hd] at h
  · rw [bindB_none] at h
    cases h
  · rw [bindB_some] at h
    rcases hmn : pyMinDate (kv.2.map (·.date)) with _ | mn <;> rw [hmn] at h
    · rw [bindB_none] at h
      cases h
    · rw [bindB_some] at h
      rcases hmx : pyMaxDate (kv.2.map (·.date)) with _ | mx <;> rw [hmx] at h
      · rw [bindB_none] at h
        cases h
      · rw [bindB_some] at h
        injection h with h
        subst h
        exact ⟨rfl, ⟨avg, mn, mx, rfl⟩, rfl, rfl⟩

/-- C8 (amended): when kellogg-tagged REGULAR transactions exist — and no
record's first non-marker tag is the literal string `"general_activities"`
(in that corner the final assignment
`groups["general_activities"] = general_activities` overwrites the
tag-keyed group and its records are dropped from the partition, see
`mba_group_overwrite_corner`) — the insight generator partitions them by
first non-marker tag with catch-all group `"general_activities"` (not
`"general"`), emits one insight per group carrying that group's total and
count, and every group insight's priority tier follows: HIGH/0.9 if
total > 1000 or count > 5, else MEDIUM/0.8 if total > 500 or count > 3,
else LOW/0.7. -/
theorem mba_insights_grouping_and_tiers (ts : List Transaction)
    (hmba : mbaSelection ts ≠ [])
    (hnc : ∀ t ∈ mbaSelection ts,
      mbaKey t = "general_activities" → nonKelloggTags t = [])
    (l : List MBAInsight) (hl : get_mba_insights ts = some l) :
    (∀ p ∈ groupMbaTransactionsByTags (mbaSelection ts),
      p.2 = (mbaSelection ts).filter (fun t => mbaKey t == p.1)) ∧
    (∀ kv ∈ groupMbaTransactionsByTags (mbaSelection ts),
      ∃ i ∈ l, i.category = kv.1 ∧ ∃ avg mn mx,
        i.data_support = .group (sumAmounts kv.2) avg kv.2.length mn mx) ∧
    (∀ i ∈ l, ∀ total avg cnt mn mx,
      i.data_support = .group total avg cnt mn mx →
      ((1000 < total ∨ 5 < cnt) →
        i.priority = "high" ∧ i.confidence_score = 9/10) ∧
      (¬(1000 < total ∨ 5 < cnt) → (500 < total ∨ 3 < cnt) →
        i.priority = "medium" ∧ i.confidence_score = 8/10) ∧
      (¬(1000 < total ∨ 5 < cnt) → ¬(500 < total ∨ 3 < cnt) →
        i.priority = "low" ∧ i.confidence_score = 7/10)) := by
  simp only [get_mba_insights] at hl
  rw [if_neg (by simpa [List.isEmpty_iff] using hmba)] at hl
  rcases hgi : mapO mbaGroupInsight
      (groupMbaTransactionsByTags (mbaSelection ts)) with _ | gis <;>
    rw [hgi] at hl
  · rw [bindB_none] at hl
    cases hl
  · rw [bindB_some] at hl
    rcases htt : mbaTrendInsights (mbaSelection ts) with _ | tail <;>
      rw [htt] at hl
    · rw [bindB_none] at hl
      cases hl
    · rw [bindB_some] at hl
      injection hl with hl
      subst hl
      refine ⟨mbaGroups_entry_eq_filter hnc, ?_, ?_⟩
      · intro kv hkv
        rcases mem_mapO_of_mem hgi kv hkv with ⟨i, hi, hieq⟩
        obtain ⟨hcat, hds, -, -⟩ := mbaGroupInsight_spec hieq
        exact ⟨i, List.mem_cons_of_mem _ (List.mem_append_left _ hi), hcat, hds⟩
      · intro i hi total avg cnt mn mx hds
        rcases List.mem_cons.mp hi with rfl | hi2
        · simp at hds
        · rcases List.mem_append.mp hi2 with higis | hitail
          · rcases mem_of_mapO hgi i higis with ⟨kv, hkv, hieq⟩
            obtain ⟨-, ⟨avg', mn', mx', hds'⟩, hpri, hconf⟩ :=
              mbaGroupInsight_spec hieq
            rw [hds'] at hds
            injection hds with h1 h2 h3 h4 h5
            subst h1
            subst h3
            refine ⟨?_, ?_, ?_⟩
            · intro hcond
              exact ⟨by rw [hpri, if_pos hcond], by rw [hconf, if_pos hcond]⟩
            · intro hn1 hcond2
              exact ⟨by rw [hpri, if_neg hn1, if_pos hcond2],
                by rw [hconf, if_neg hn1, if_pos hcond2]⟩
            · intro hn1 hn2
              exact ⟨by rw [hpri, if_neg hn1, if_neg hn2],
                by rw [hconf, if_neg hn1, if_neg hn2]⟩
          · simp only [mbaTrendInsights] at htt
            by_cases hm : 1 < (monthlyMba (mbaSelection ts)).length
            · rw [if_pos hm] at htt
              rcases hdq : divQ (((monthlyMba (mbaSelection ts)).map (·.2)).sum)
                  (((monthlyMba (mbaSelection ts)).length : ℚ)) with _ | avgm <;>
                rw [hdq] at htt
              · rw [bindB_none] at htt
                cases htt
              · rw [bindB_some] at htt
                rcases hmx : pyMaxBySnd (monthlyMba (mbaSelection ts))
                    with _ | mxp <;> rw [hmx] at htt
                · rw [bindB_none] at htt
                  cases htt
                · rw [bindB_some] at htt
                  injection htt with htt
                  subst htt
                  rcases List.mem_singleton.mp hitail with rfl
                  simp at hds
            · rw [if_neg hm] at htt
              injection htt with htt
              subst htt
              cases hitail

/-- A REGULAR record whose only tag is the marker itself. -/
def txKelloggOnly : Transaction :=
  { id := "k0", amount := 10, description := "fee", merchant := none,
    category := "other", date := ⟨2024, 9, 1⟩, tags := ["kellogg"],
    transaction_type := .regular, excluded := false }

/-- C8 counterexample: a marker-tagged transaction with no other tag falls
into a group named `"general_activities"`, not `"general"` as the claim has
it — the insight categories at this input are exactly
`["mba_total", "general_activities"]`. -/
theorem mba_general_group_counterexample :
    (get_mba_insights [txKelloggOnly]).map (fun l => l.map (fun i => i.category))
      = some ["mba_total", "general_activities"] ∧
    ("general_activities" : String) ≠ "general" := by
  refine ⟨rfl, by decide⟩

/-- A marker-tagged record whose first non-marker tag is `"books"`. -/
def txKelloggBooks : Transaction :=
  { id := "k1", amount := 120, description := "casebook", merchant := none,
    category := "books_supplies", date := ⟨2024, 9, 5⟩,
    tags := ["kellogg", "books"], transaction_type := .regular,
    excluded := false }

theorem wMba_ne : mbaSelection [txKelloggBooks] ≠ [] := by decide

theorem wMba_nc : ∀ t ∈ mbaSelection [txKelloggBooks],
    mbaKey t = "general_activities" → nonKelloggTags t = [] := by decide

/-- Witness for `mba_insights_grouping_and_tiers` at a concrete record. -/
theorem mba_insights_grouping_and_tiers_witness :
    (∀ p ∈ groupMbaTransactionsByTags (mbaSelection [txKelloggBooks]),
      p.2 = (mbaSelection [txKelloggBooks]).filter
        (fun t => mbaKey t == p.1)) ∧
    (∀ kv ∈ groupMbaTransactionsByTags (mbaSelection [txKelloggBooks]),
      ∃ i ∈ (get_mba_insights [txKelloggBooks]).get
          (get_mba_insights_isSome [txKelloggBooks]),
        i.category = kv.1 ∧ ∃ avg mn mx,
          i.data_support = .group (sumAmounts kv.2) avg kv.2.length mn mx) ∧
    (∀ i ∈ (get_mba_insights [txKelloggBooks]).get
        (get_mba_insights_isSome [txKelloggBooks]),
      ∀ total avg cnt mn mx,
      i.data_support = .group total avg cnt mn mx →
      ((1000 < total ∨ 5 < cnt) →
        i.priority = "high" ∧ i.confidence_score = 9/10) ∧
      (¬(1000 < total ∨ 5 < cnt) → (500 < total ∨ 3 < cnt) →
        i.priority = "medium" ∧ i.confidence_score = 8/10) ∧
      (¬(1000 < total ∨ 5 < cnt) → ¬(500 < total ∨ 3 < cnt) →
        i.priority = "low" ∧ i.confidence_score = 7/10)) :=
  mba_insights_grouping_and_tiers [txKelloggBooks] wMba_ne wMba_nc _
    (Option.some_get _).symm

/-! ## Tag catalogue (`get_available_tags`, data_service.py 583-621) -/

/-- Running statistics per tag. -/
structure TagAcc where
  transaction_count : Nat
  total_amount : ℚ
  categories : List String
  deriving DecidableEq, Repr

/-- Model of `set.add`: Python's set iteration order is unspecified; we keep
first-insertion order (the claims never inspect this order). -/
def insertCat (c : String) (cs : List String) : List String :=
  if c ∈ cs then cs else cs ++ [c]

/-- One output row of `get_available_tags`. -/
structure TagStatsEntry where
  tag : String
  transaction_count : Nat
  total_amount : ℚ
  category_count : Nat
  categories : List String
  deriving DecidableEq, Repr

structure AvailableTagsResult where
  available_tags : List TagStatsEntry
  total_tags : Nat
  total_transactions : Nat
  deriving DecidableEq, Repr

/-- `get_available_tags`: per-tag counts, totals and distinct categories,
sorted descending by total amount.  (Tags are matched verbatim here — no
lower-casing.) -/
def get_available_tags (transactions : List Transaction) :
    AvailableTagsResult :=
  let tag_stats := transactions.foldl (fun m t =>
    t.tags.foldl (fun m' tag =>
      updAssoc tag (fun s =>
        { transaction_count := s.transaction_count + 1,
          total_amount := s.total_amount + t.amount,
          categories := insertCat t.category s.categories })
        (⟨0, 0, []⟩ : TagAcc) m') m) []
  let available_tags := (tag_stats.map (fun p =>
    ({ tag := p.1, transaction_count := p.2.transaction_count,
       total_amount := p.2.total_amount,
       category_count := p.2.categories.length,
       categories := p.2.categories } : TagStatsEntry))).insertionSort
      (fun a b => b.total_amount ≤ a.total_amount)
  { available_tags := available_tags,
    total_tags := available_tags.length,
    total_transactions := transactions.length }

/-! ## Claim C2: totality of the operations -/

/-- C2 counterexample: `tagCategoryOverlap` *does* raise on a record set
whose (tagged) amounts sum to zero — one tagged record of amount 0 hits the
unguarded `category_amount / total_tagged_amount`. -/
theorem overlap_raises_on_zero_total_counterexample :
    taggedSelection "t" [txZeroTagged] ≠ [] ∧
      calculate_category_tag_overlap "t" [txZeroTagged] = none := by
  refine ⟨by decide, overlap_zero_total_eq_none (by decide) ?_⟩
  rw [show taggedSelection "t" [txZeroTagged] = [txZeroTagged] by decide]
  simp [sumAmounts, txZeroTagged]

/-- C2 (amended): every guarded aggregation (`get_transaction_summary` with
its average and velocity divisions, `get_mba_insights` with its per-group
and monthly averages) returns a value on all inputs — the remaining
operations (`filter`, `categoryBreakdown`, `monthlyTrend`, `topMerchants`,
`multiTagCategoryOverlap`, `availableTags`) contain no division or emptiness
hazard and are embedded as plain total functions — but
`tagCategoryOverlap` raises precisely when some record carries the tag and
the tagged amounts sum to zero: its division is unguarded. -/
theorem operations_never_raise_except_overlap :
    (∀ (q : TransactionQuery) (ts : List Transaction),
      (get_transaction_summary q ts).isSome) ∧
    (∀ ts : List Transaction, (calculate_spending_velocity ts).isSome) ∧
    (∀ ts : List Transaction, (get_mba_insights ts).isSome) ∧
    (∀ (g : String) (ts : List Transaction),
      (calculate_category_tag_overlap g ts).isSome ↔
        (taggedSelection g ts = [] ∨
          sumAmounts (taggedSelection g ts) ≠ 0)) := by
  refine ⟨get_transaction_summary_isSome, calculate_spending_velocity_isSome,
    get_mba_insights_isSome, ?_⟩
  intro g ts
  constructor
  · intro hs
    by_cases hne : taggedSelection g ts = []
    · exact Or.inl hne
    · by_cases h0 : sumAmounts (taggedSelection g ts) = 0
      · rw [overlap_zero_total_eq_none hne h0] at hs
        cases hs
      · exact Or.inr h0
  · rintro (h | h)
    · rw [overlap_degenerate_shape g ts h]
      rfl
    · exact calculate_category_tag_overlap_isSome h

/-- Witness instantiating `operations_never_raise_except_overlap` at
concrete inputs. -/
theorem operations_never_raise_except_overlap_witness :
    (get_transaction_summary {} [txAmount5]).isSome ∧
      ((calculate_category_tag_overlap "t" [txZeroTagged]).isSome ↔
        (taggedSelection "t" [txZeroTagged] = [] ∨
          sumAmounts (taggedSelection "t" [txZeroTagged]) ≠ 0)) :=
  ⟨operations_never_raise_except_overlap.1 {} [txAmount5],
    operations_never_raise_except_overlap.2.2.2 "t" [txZeroTagged]⟩

/-- A marker-tagged record whose first non-marker tag is literally
`"general_activities"`. -/
def txKelloggGA : Transaction :=
  { id := "k2", amount := 35, description := "mixer", merchant := none,
    category := "networking", date := ⟨2024, 9, 7⟩,
    tags := ["kellogg", "general_activities"],
    transaction_type := .regular, excluded := false }

/-- Why the amended C8 statement carries its proviso: when a record's first
non-marker tag is literally `"general_activities"`, the final dict
assignment `groups["general_activities"] = general_activities`
(data_service.py 302) overwrites that tag's group, dropping its records —
the resulting entry is *not* the selection filtered by its group key, so the
partition statement fails without the proviso. -/
theorem mba_group_overwrite_corner :
    groupMbaTransactionsByTags (mbaSelection [txKelloggGA, txKelloggOnly])
      = [("general_activities", [txKelloggOnly])] ∧
    (mbaSelection [txKelloggGA, txKelloggOnly]).filter
        (fun t => mbaKey t == "general_activities")
      = [txKelloggGA, txKelloggOnly] := by
  exact ⟨by decide, by decide⟩
